import Mathlib

/-!
Verification of the deduplication core of the news-headline skill.

The Python sources embedded here are `english-news-skill/scripts/dedup.py`
and `scripts/utils/time_parser.py`.  Python strings are modelled as
`List Char` (`Str`), Python floats as `ℚ`, Python `datetime` values as UTC
epoch seconds (`Int`), and Python dicts with a fixed key set as structures
or association lists.  `re` character classes (`\d`, `\s`, `\w`) and
`str.lower` are modelled on the ASCII range.  The MD5 digest is modelled
as an injective placeholder (the digested text itself): only digest
equality is ever consumed by the code under verification.
-/

abbrev Str := List Char

/-- ASCII model of the `\s` class / `str.split()` separators. -/
def isSpaceChar (c : Char) : Bool :=
  c = ' ' || c = '\t' || c = '\n' || c = '\r' || c = '\x0b' || c = '\x0c'

/-- ASCII model of the regex `\w` class. -/
def isWordChar (c : Char) : Bool :=
  c.isAlphanum || c = '_'

/-- `str.strip()` (ASCII whitespace model). -/
def stripWs (s : Str) : Str :=
  ((s.dropWhile isSpaceChar).reverse.dropWhile isSpaceChar).reverse

/-- Right-strip whitespace only. -/
def rstripWs (s : Str) : Str :=
  (s.reverse.dropWhile isSpaceChar).reverse

/-- `str.split()` with no argument: split on whitespace runs, dropping
empty pieces. -/
def splitWsAux : Str → Str → List Str
  | [], acc => if acc = [] then [] else [acc.reverse]
  | c :: rest, acc =>
    if isSpaceChar c then
      if acc = [] then splitWsAux rest [] else acc.reverse :: splitWsAux rest []
    else splitWsAux rest (c :: acc)

def splitWs (s : Str) : List Str := splitWsAux s []

/-- `' '.join(s.split())`: collapse whitespace runs to single spaces and
trim the ends. -/
def collapseWs (s : Str) : Str := List.intercalate [' '] (splitWs s)

def lowerStr (s : Str) : Str := s.map Char.toLower

/-! ## Title normalization (`normalize_title`, dedup.py lines 146-173)

The three `TITLE_SUFFIXES` regexes are `$`-anchored, so `re.sub` deletes at
most one span, from the left edge of the leftmost match to the end of the
string.  Each regex is compiled here into an explicit leftmost-match
scanner.  `.*` does not cross a newline and `$` also matches just before a
single trailing newline, hence the `dropLast`-based checks. -/

/-- `.*$` accepts a tail iff it has no newline except possibly as its very
last character. -/
def tailOk (l : Str) : Bool := ! l.dropLast.contains '\n'

/-- The separator class `[-–—|]` of the first suffix pattern. -/
def dashChar (c : Char) : Bool :=
  c = '-' || c = '–' || c = '—' || c = '|'

/-- The source-name alternatives of the first suffix pattern (lowercase;
the pattern is applied case-insensitively to an already lowercased title).
`BBC.*` contributes the bare prefix `bbc`. -/
def sourceAlts : List Str :=
  ["hacker news".data, "reddit".data, "bbc".data, "reuters".data,
   "ap news".data, "techcrunch".data, "ars technica".data, "the verge".data,
   "bloomberg".data, "yahoo finance".data, "cnbc".data, "github".data,
   "product hunt".data]

/-- After the dash and optional whitespace: one alternative must match and
the remainder must satisfy `.*$`. -/
def altAt (rest : Str) : Bool :=
  sourceAlts.any fun alt =>
    alt.isPrefixOf (lowerStr rest) && tailOk (rest.drop alt.length)

/-- Leftmost dash position at which pattern 1 matches. -/
def findDashMatch : Str → Nat → Option Nat
  | [], _ => none
  | c :: rest, j =>
    if dashChar c && altAt (rest.dropWhile isSpaceChar) then some j
    else findDashMatch rest (j + 1)

/-- `re.sub` with pattern `\s*[-–—|]\s*(Hacker News|...).*$`. -/
def stripSrcSuffix (s : Str) : Str :=
  match findDashMatch s 0 with
  | none => s
  | some j => rstripWs (s.take j)

/-- After the colon of pattern 2: optional whitespace, `r/`, then `\w+$`. -/
def pat2At (rest : Str) : Bool :=
  match rest.dropWhile isSpaceChar with
  | 'r' :: '/' :: tail =>
    let w := tail.takeWhile isWordChar
    decide (w ≠ []) && (tail.drop w.length = [] || tail.drop w.length = ['\n'])
  | _ => false

def findColonMatch : Str → Nat → Option Nat
  | [], _ => none
  | c :: rest, j =>
    if c = ':' && pat2At rest then some j
    else findColonMatch rest (j + 1)

/-- `re.sub` with pattern `\s*:\s*r/\w+$`. -/
def stripColonSuffix (s : Str) : Str :=
  match findColonMatch s 0 with
  | none => s
  | some j => rstripWs (s.take j)

/-- After an opening bracket of pattern 3: the string must end with `]`
(possibly before one trailing newline) with no newline in between. -/
def pat3After (rest : Str) : Bool :=
  let core := match rest.getLast? with
    | some c => if c = '\n' then rest.dropLast else rest
    | none => rest
  core.getLast? = some ']' && ! core.dropLast.contains '\n'

def findBracketMatch : Str → Nat → Option Nat
  | [], _ => none
  | c :: rest, j =>
    if c = '[' && pat3After rest then some j
    else findBracketMatch rest (j + 1)

/-- `re.sub` with pattern `\s*\[.*?\]$`. -/
def stripBracketSuffix (s : Str) : Str :=
  match findBracketMatch s 0 with
  | none => s
  | some j => rstripWs (s.take j)

def titlePrefixes : List Str :=
  ["breaking:".data, "update:".data, "exclusive:".data, "live:".data,
   "watch:".data]

def stripPre (s : Str) (p : Str) : Str :=
  if p.isPrefixOf s then s.drop p.length else s

/-- `normalize_title` (dedup.py lines 146-173). -/
def normalize_title (title : Str) : Str :=
  if title = [] then []
  else
    let n1 := lowerStr title
    let n2 := stripSrcSuffix n1
    let n3 := stripColonSuffix n2
    let n4 := stripBracketSuffix n3
    let n5 := titlePrefixes.foldl stripPre n4
    let n6 := n5.map fun c => if isWordChar c || isSpaceChar c then c else ' '
    stripWs (collapseWs n6)

/-! ## `difflib.SequenceMatcher` (stdlib), as used by `title_similarity`

`SequenceMatcher(None, a, b).ratio()` with no junk predicate.  Autojunk:
when `len(b) ≥ 200`, elements occurring more than `len(b)//100 + 1` times
in `b` are dropped from the position index `b2j`.  The junk set proper is
empty (`isjunk=None`), so only the two non-junk extension loops of
`find_longest_match` can fire. -/

/-- Ascending positions of `c` in `b` (the `b2j` lists before autojunk). -/
def b2jAll (b : Str) (c : Char) : List Nat :=
  (List.range b.length).filter fun j => b.getD j ' ' = c && True

/-- Autojunk: popular elements are dropped from `b2j`. -/
def popularB (b : Str) (c : Char) : Bool :=
  b.length ≥ 200 && b.count c > b.length / 100 + 1

def b2j (b : Str) (c : Char) : List Nat :=
  if popularB b c then [] else b2jAll b c

structure FlmState where
  besti : Nat
  bestj : Nat
  bestk : Nat
  deriving Repr, DecidableEq

/-- Inner loop of `find_longest_match` over the `b2j` list of `a[i]`,
with the `continue` (j < blo) and `break` (j ≥ bhi) of the source.
`j2old` is the previous row's `j2len` (default 0), `j2new` the row being
built. -/
def flmInner (blo bhi i : Nat) (j2old : Nat → Nat) :
    List Nat → (Nat → Nat) → FlmState → ((Nat → Nat) × FlmState)
  | [], j2new, st => (j2new, st)
  | j :: rest, j2new, st =>
    if j < blo then flmInner blo bhi i j2old rest j2new st
    else if bhi ≤ j then (j2new, st)
    else
      let k := (if j = 0 then 0 else j2old (j - 1)) + 1
      let j2new' := fun x => if x = j then k else j2new x
      let st' := if k > st.bestk then ⟨i + 1 - k, j + 1 - k, k⟩ else st
      flmInner blo bhi i j2old rest j2new' st'

/-- Outer loop of `find_longest_match` over the rows `alo ≤ i < ahi`. -/
def flmRows (a b : Str) (blo bhi : Nat) :
    List Nat → (Nat → Nat) → FlmState → FlmState
  | [], _, st => st
  | i :: is, j2len, st =>
    let step := flmInner blo bhi i j2len (b2j b (a.getD i ' ')) (fun _ => 0) st
    flmRows a b blo bhi is step.1 step.2

/-- First extension loop: grow the match leftwards over equal (non-junk)
elements.  The junk set is empty, so the junk guard is omitted; `fuel`
(`besti` at entry) bounds the at most `besti - alo` iterations. -/
def extendLo (a b : Str) (alo blo : Nat) : Nat → FlmState → FlmState
  | 0, st => st
  | fuel + 1, st =>
    if alo < st.besti && blo < st.bestj &&
        a.getD (st.besti - 1) '\x00' = b.getD (st.bestj - 1) '\x01' then
      extendLo a b alo blo fuel ⟨st.besti - 1, st.bestj - 1, st.bestk + 1⟩
    else st

/-- Second extension loop: grow the match rightwards. -/
def extendHi (a b : Str) (ahi bhi : Nat) : Nat → FlmState → FlmState
  | 0, st => st
  | fuel + 1, st =>
    if st.besti + st.bestk < ahi && st.bestj + st.bestk < bhi &&
        a.getD (st.besti + st.bestk) '\x00'
          = b.getD (st.bestj + st.bestk) '\x01' then
      extendHi a b ahi bhi fuel ⟨st.besti, st.bestj, st.bestk + 1⟩
    else st

def find_longest_match (a b : Str) (alo ahi blo bhi : Nat) : FlmState :=
  let st1 := flmRows a b blo bhi (List.range' alo (ahi - alo)) (fun _ => 0)
    ⟨alo, blo, 0⟩
  let st2 := extendLo a b alo blo st1.besti st1
  extendHi a b ahi bhi (ahi - (st2.besti + st2.bestk)) st2

/-- Total size of all matching blocks (`get_matching_blocks` recursion;
only the sum of block sizes is consumed by `ratio`).  `fuel` bounds the
recursion depth; each level strictly shrinks the combined window size, so
any fuel beyond `|a| + |b| + 1` is never exhausted. -/
def matchSum (a b : Str) : Nat → Nat → Nat → Nat → Nat → Nat
  | 0, _, _, _, _ => 0
  | fuel + 1, alo, ahi, blo, bhi =>
    let st := find_longest_match a b alo ahi blo bhi
    if st.bestk = 0 then 0
    else
      matchSum a b fuel alo st.besti blo st.bestj + st.bestk +
        matchSum a b fuel (st.besti + st.bestk) ahi (st.bestj + st.bestk) bhi

/-- `SequenceMatcher(None, a, b).ratio()` as an exact rational
(`2.0 * matches / (len(a) + len(b))`, or `1.0` on two empty strings). -/
def ratioQ (a b : Str) : ℚ :=
  let total := a.length + b.length
  if total = 0 then 1
  else (2 * (matchSum a b (total + 1) 0 a.length 0 b.length) : ℚ) / total

/-- `title_similarity` (dedup.py lines 176-184). -/
def title_similarity (t1 t2 : Str) : ℚ :=
  let n1 := normalize_title t1
  let n2 := normalize_title t2
  if n1 = [] || n2 = [] then 0
  else ratioQ n1 n2

/-! ## Content fingerprint (`content_hash`, dedup.py lines 187-194) -/

/-- MD5 hex digest, modelled as an injective placeholder (a marker
character followed by the digested text): the code under verification
only ever compares digests for equality and for truthiness, and a real
hex digest is never empty — not even the digest of the empty string. -/
def md5_hexdigest (s : Str) : Str := 'h' :: s

/-- `content_hash` (dedup.py lines 187-194). -/
def content_hash (content : Str) : Str :=
  if content = [] then []
  else md5_hexdigest (collapseWs (lowerStr (content.take 500)))

/-! ## `urllib.parse` (stdlib, CPython 3.11 semantics), as used by
`canonicalize_url`

Percent-encoding is modelled byte-exactly (UTF-8); `unquote`'s
invalid-UTF-8 replacement is a simplified decoder that agrees with CPython
on all well-formed input.  Bracketed (IPv6-literal) hosts are modelled as
a parse failure, which CPython 3.11 also raises for every bracketed host
that is not a literal IP address; `canonicalize_url` catches the failure
and returns its input unchanged either way. -/

def isSchemeChar (c : Char) : Bool :=
  c.isAlphanum || c = '+' || c = '-' || c = '.'

/-- Scheme recognition of `urlsplit`: a `:` at position `i > 0`, an ASCII
alphabetic first character and only scheme characters before the colon. -/
def splitScheme (url : Str) : Str × Str :=
  match url.findIdx? (fun c => c = ':') with
  | some i =>
    if 0 < i && (url.take i).all isSchemeChar && (url.getD 0 ' ').isAlpha then
      (lowerStr (url.take i), url.drop (i + 1))
    else ([], url)
  | none => ([], url)

def isNetlocEnd (c : Char) : Bool := c = '/' || c = '?' || c = '#'

/-- Split at the first occurrence of `sep`; `none` if absent. -/
def splitFirst (sep : Char) (l : Str) : Str × Option Str :=
  match l.findIdx? (fun c => c = sep) with
  | some i => (l.take i, some (l.drop (i + 1)))
  | none => (l, none)

structure SplitResult where
  scheme : Str
  netloc : Str
  path : Str
  query : Str
  fragment : Str
  deriving Repr, DecidableEq

/-- `urllib.parse.urlsplit`.  Returns `none` where CPython raises
`ValueError` (bracketed hosts, see the section comment). -/
def urlsplit (url0 : Str) : Option SplitResult :=
  let url1 := url0.filter fun c => !(c = '\t' || c = '\r' || c = '\n')
  let sp := splitScheme url1
  let scheme := sp.1
  let rest := sp.2
  let nl : Str × Str :=
    if "//".data.isPrefixOf rest then
      ((rest.drop 2).takeWhile (fun c => !isNetlocEnd c),
       (rest.drop 2).dropWhile (fun c => !isNetlocEnd c))
    else ([], rest)
  let netloc := nl.1
  if netloc.contains '[' || netloc.contains ']' then none
  else
    let fr := splitFirst '#' nl.2
    let qu := splitFirst '?' fr.1
    some ⟨scheme, netloc, qu.1, (qu.2).getD [], (fr.2).getD []⟩

/-- Index of the last occurrence of `c`, if any. -/
def lastIdxOf (c : Char) (l : Str) : Option Nat :=
  (l.reverse.findIdx? (fun x => x = c)).map fun i => l.length - 1 - i

/-- First index `≥ start` holding `c`. -/
def findFrom (c : Char) (l : Str) (start : Nat) : Option Nat :=
  ((l.drop start).findIdx? (fun x => x = c)).map (· + start)

/-- `urllib.parse._splitparams`: split `;params` off the last path
segment. -/
def splitParams (p : Str) : Str × Str :=
  let start := if p.contains '/' then (lastIdxOf '/' p).getD 0 else 0
  match findFrom ';' p start with
  | none => (p, [])
  | some i => (p.take i, p.drop (i + 1))

def uses_params : List Str :=
  ["".data, "ftp".data, "hdl".data, "prospero".data, "http".data,
   "imap".data, "https".data, "shttp".data, "rtsp".data, "rtsps".data,
   "rtspu".data, "sip".data, "sips".data, "mms".data, "sftp".data,
   "tel".data]

def uses_netloc : List Str :=
  ["".data, "ftp".data, "http".data, "gopher".data, "nntp".data,
   "telnet".data, "imap".data, "wais".data, "file".data, "mms".data,
   "https".data, "shttp".data, "snews".data, "prospero".data, "rtsp".data,
   "rtsps".data, "rtspu".data, "rsync".data, "svn".data, "svn+ssh".data,
   "sftp".data, "nfs".data, "git".data, "git+ssh".data, "ws".data,
   "wss".data]

structure ParseResult where
  scheme : Str
  netloc : Str
  path : Str
  params : Str
  query : Str
  fragment : Str
  deriving Repr, DecidableEq

/-- `urllib.parse.urlparse`. -/
def urlparse (url : Str) : Option ParseResult :=
  (urlsplit url).map fun r =>
    if r.scheme ∈ uses_params && r.path.contains ';' then
      let pp := splitParams r.path
      ⟨r.scheme, r.netloc, pp.1, pp.2, r.query, r.fragment⟩
    else ⟨r.scheme, r.netloc, r.path, [], r.query, r.fragment⟩

/-- `urllib.parse.urlunsplit` (CPython 3.11). -/
def urlunsplit (scheme netloc path query fragment : Str) : Str :=
  let url := path
  let url :=
    if netloc ≠ [] ∨
        (scheme ≠ [] ∧ scheme ∈ uses_netloc ∧ ¬ "//".data.isPrefixOf url) then
      let url' := if url ≠ [] ∧ url.getD 0 ' ' ≠ '/' then '/' :: url else url
      "//".data ++ netloc ++ url'
    else url
  let url := if scheme ≠ [] then scheme ++ ':' :: url else url
  let url := if query ≠ [] then url ++ '?' :: query else url
  if fragment ≠ [] then url ++ '#' :: fragment else url

/-- `urllib.parse.urlunparse`. -/
def urlunparse (scheme netloc path params query fragment : Str) : Str :=
  let p := if params ≠ [] then path ++ ';' :: params else path
  urlunsplit scheme netloc p query fragment

/-! ### Percent-encoding -/

def hexVal? (c : Char) : Option Nat :=
  if '0' ≤ c ∧ c ≤ '9' then some (c.toNat - 48)
  else if 'a' ≤ c ∧ c ≤ 'f' then some (c.toNat - 97 + 10)
  else if 'A' ≤ c ∧ c ≤ 'F' then some (c.toNat - 65 + 10)
  else none

def hexDigitUp (n : Nat) : Char :=
  if n < 10 then Char.ofNat (48 + n) else Char.ofNat (65 + n - 10)

/-- UTF-8 bytes of one character. -/
def utf8Encode (c : Char) : List Nat :=
  let n := c.toNat
  if n < 0x80 then [n]
  else if n < 0x800 then [0xC0 + n / 64, 0x80 + n % 64]
  else if n < 0x10000 then
    [0xE0 + n / 4096, 0x80 + n / 64 % 64, 0x80 + n % 64]
  else
    [0xF0 + n / 0x40000, 0x80 + n / 4096 % 64, 0x80 + n / 64 % 64,
     0x80 + n % 64]

/-- UTF-8 decoder with U+FFFD replacement on malformed input (the exact
CPython resynchronisation on malformed input is simplified; both agree on
all well-formed byte runs, the only runs the proofs rely on). -/
def utf8DecodeGo : Nat → List Nat → Str
  | _, [] => []
  | 0, _ => []
  | fuel + 1, b :: rest =>
    if b < 0x80 then Char.ofNat b :: utf8DecodeGo fuel rest
    else if 0xC2 ≤ b ∧ b ≤ 0xDF then
      match rest with
      | b2 :: r2 =>
        if 0x80 ≤ b2 ∧ b2 ≤ 0xBF then
          Char.ofNat ((b - 0xC0) * 64 + (b2 - 0x80)) :: utf8DecodeGo fuel r2
        else '�' :: utf8DecodeGo fuel rest
      | [] => ['�']
    else if 0xE0 ≤ b ∧ b ≤ 0xEF then
      match rest with
      | b2 :: b3 :: r3 =>
        let v := (b - 0xE0) * 4096 + (b2 - 0x80) * 64 + (b3 - 0x80)
        if 0x80 ≤ b2 ∧ b2 ≤ 0xBF ∧ 0x80 ≤ b3 ∧ b3 ≤ 0xBF ∧ 0x800 ≤ v ∧
            ¬ (0xD800 ≤ v ∧ v ≤ 0xDFFF) then
          Char.ofNat v :: utf8DecodeGo fuel r3
        else '�' :: utf8DecodeGo fuel rest
      | _ => ['�']
    else if 0xF0 ≤ b ∧ b ≤ 0xF4 then
      match rest with
      | b2 :: b3 :: b4 :: r4 =>
        let v := (b - 0xF0) * 0x40000 + (b2 - 0x80) * 4096 +
          (b3 - 0x80) * 64 + (b4 - 0x80)
        if 0x80 ≤ b2 ∧ b2 ≤ 0xBF ∧ 0x80 ≤ b3 ∧ b3 ≤ 0xBF ∧
            0x80 ≤ b4 ∧ b4 ≤ 0xBF ∧ 0x10000 ≤ v ∧ v ≤ 0x10FFFF then
          Char.ofNat v :: utf8DecodeGo fuel r4
        else '�' :: utf8DecodeGo fuel rest
      | _ => ['�']
    else '�' :: utf8DecodeGo fuel rest

def utf8Decode (bs : List Nat) : Str := utf8DecodeGo bs.length bs

/-- `urllib.parse.unquote` on a pure string: `%XX` hex pairs become bytes,
maximal byte runs are UTF-8-decoded, anything else is literal.  The fuel
(one unit per consumed character) keeps the recursion structural; it can
never run out when started at the input length. -/
def unquoteGo : Nat → Str → List Nat → Str
  | _, [], buf => utf8Decode buf.reverse
  | fuel + 1, '%' :: a :: b :: rest, buf =>
    match hexVal? a, hexVal? b with
    | some ha, some hb => unquoteGo fuel rest ((ha * 16 + hb) :: buf)
    | _, _ =>
      utf8Decode buf.reverse ++ '%' :: unquoteGo fuel (a :: b :: rest) []
  | fuel + 1, c :: rest, buf => utf8Decode buf.reverse ++ c :: unquoteGo fuel rest []
  | 0, l, buf => utf8Decode buf.reverse ++ l

def unquote (s : Str) : Str := unquoteGo s.length s []

/-- `urllib.parse.unquote_plus`. -/
def unquote_plus (s : Str) : Str :=
  unquote (s.map fun c => if c = '+' then ' ' else c)

/-- The characters `quote` never escapes (`_ALWAYS_SAFE`); the `safe`
argument is `''` in `urlencode`'s use of `quote_plus`. -/
def alwaysSafe (c : Char) : Bool :=
  c.isAlphanum || c = '_' || c = '.' || c = '-' || c = '~'

def quotePlusChar (c : Char) : Str :=
  if alwaysSafe c then [c]
  else if c = ' ' then ['+']
  else (utf8Encode c).flatMap fun b =>
    ['%', hexDigitUp (b / 16), hexDigitUp (b % 16)]

/-- `urllib.parse.quote_plus` with `safe=''`. -/
def quote_plus (s : Str) : Str := s.flatMap quotePlusChar

/-! ### Query strings -/

/-- Split on every occurrence of `sep` (Python `str.split(sep)`). -/
def splitOnChar (sep : Char) : Str → List Str
  | [] => [[]]
  | c :: rest =>
    if c = sep then [] :: splitOnChar sep rest
    else match splitOnChar sep rest with
      | [] => [[c]]
      | f :: fs => (c :: f) :: fs

/-- `urllib.parse.parse_qsl(qs, keep_blank_values=True)`. -/
def parse_qsl (qs : Str) : List (Str × Str) :=
  (splitOnChar '&' qs).filterMap fun field =>
    if field = [] then none
    else some (match splitFirst '=' field with
      | (name, some value) => (unquote_plus name, unquote_plus value)
      | (name, none) => (unquote_plus name, []))

/-- Append `v` to the entry of `k`, or add a new entry (dict insertion
order). -/
def qsInsert (acc : List (Str × List Str)) (k : Str) (v : Str) :
    List (Str × List Str) :=
  match acc with
  | [] => [(k, [v])]
  | (k', vs) :: rest =>
    if k' = k then (k', vs ++ [v]) :: rest else (k', vs) :: qsInsert rest k v

/-- `urllib.parse.parse_qs(qs, keep_blank_values=True)`. -/
def parse_qs (qs : Str) : List (Str × List Str) :=
  (parse_qsl qs).foldl (fun acc kv => qsInsert acc kv.1 kv.2) []

/-- `urllib.parse.urlencode(d, doseq=True)` (values are string lists). -/
def urlencode (d : List (Str × List Str)) : Str :=
  List.intercalate ['&'] <| d.flatMap fun kv =>
    kv.2.map fun v => quote_plus kv.1 ++ '=' :: quote_plus v

/-! ## `canonicalize_url` (dedup.py lines 56-143) -/

def TRACKING_PARAMS : List Str :=
  ["utm_source".data, "utm_medium".data, "utm_campaign".data,
   "utm_term".data, "utm_content".data, "ref".data, "source".data,
   "fbclid".data, "gclid".data, "msclkid".data, "mc_cid".data,
   "mc_eid".data, "share".data, "share_id".data, "via".data, "from".data]

/-- Is `pat` a contiguous substring? -/
def containsSub (pat : Str) : Str → Bool
  | [] => pat.isPrefixOf []
  | c :: t => pat.isPrefixOf (c :: t) || containsSub pat t

/-- The part before the first occurrence of `pat`
(`s.split(pat)[0]`; whole string if absent). -/
def beforeSub (pat : Str) : Str → Str
  | [] => []
  | c :: t => if pat.isPrefixOf (c :: t) then [] else c :: beforeSub pat t

/-- `path.rstrip('/')`. -/
def rstripSlash (p : Str) : Str :=
  (p.reverse.dropWhile (fun c => c = '/')).reverse

/-- `canonicalize_url` (dedup.py lines 56-143).  The `except Exception`
branch returns the input unchanged. -/
def canonicalize_url (url : Str) : Str :=
  if url = [] then []
  else match urlparse url with
  | none => url
  | some parsed =>
    let netloc := lowerStr parsed.netloc
    let netloc :=
      if "www.".data.isPrefixOf netloc then netloc.drop 4 else netloc
    let netloc :=
      if "amp.".data.isPrefixOf netloc then netloc.drop 4 else netloc
    let netloc :=
      if "m.".data.isPrefixOf netloc then netloc.drop 2
      else if "mobile.".data.isPrefixOf netloc then netloc.drop 7
      else netloc
    let netloc :=
      if containsSub ".cdn.ampproject.org".data netloc then
        (beforeSub ".cdn.ampproject.org".data netloc).map fun c =>
          if c = '-' then '.' else c
      else netloc
    let path := parsed.path
    let path :=
      if "/amp/".data.isPrefixOf path then path.drop 4
      else if "/amp".data.isPrefixOf path then
        (if 4 < path.length then path.drop 4 else [])
      else path
    let path :=
      if "/amp".data.isSuffixOf path then path.take (path.length - 4)
      else if "/amp/".data.isSuffixOf path then path.take (path.length - 5)
      else path
    let query :=
      if parsed.query ≠ [] then
        let params := parse_qs parsed.query
        let filtered := params.filter fun kv =>
          ¬ lowerStr kv.1 ∈ TRACKING_PARAMS
        if filtered ≠ [] then urlencode filtered else []
      else []
    let path := rstripSlash path
    urlunparse parsed.scheme netloc path [] query []

/-! ## Time parsing (`scripts/utils/time_parser.py`)

Python `datetime` values are modelled as UTC epoch seconds (`Int`,
microseconds dropped), with "now" an explicit parameter wherever the
source calls `datetime.now(timezone.utc)`.  `fromisoformat` is modelled on
the dashed calendar-date core grammar
`YYYY-MM-DD[<sep>HH[:MM[:SS[.f+]]]][±HH:MM[:SS]]` accepted by every
CPython version.  `strptime` is modelled token-by-token for exactly the
nine fallback formats the source tries, with the stdlib's per-field regex
alternations and case-insensitive name/literal matching. -/

def isLeapYear (y : Int) : Bool :=
  y % 4 = 0 && (y % 100 ≠ 0 || y % 400 = 0)

def daysInMonth (y : Int) (m : Nat) : Nat :=
  if m = 2 then (if isLeapYear y then 29 else 28)
  else if m = 4 ∨ m = 6 ∨ m = 9 ∨ m = 11 then 30
  else 31

/-- Days since 1970-01-01 of the civil date `y-m-d` (proleptic
Gregorian). -/
def daysFromCivil (y : Int) (m d : Nat) : Int :=
  let y' : Int := if m ≤ 2 then y - 1 else y
  let era : Int := (if 0 ≤ y' then y' else y' - 399) / 400
  let yoe : Int := y' - era * 400
  let mp : Int := ((m : Int) + 9) % 12
  let doy : Int := (153 * mp + 2) / 5 + (d : Int) - 1
  let doe : Int := yoe * 365 + yoe / 4 - yoe / 100 + doy
  era * 146097 + doe - 719468

/-- Epoch seconds of a civil datetime (no offset applied). -/
def epochOf (y : Int) (mo d h mi s : Nat) : Int :=
  daysFromCivil y mo d * 86400 + (h : Int) * 3600 + (mi : Int) * 60 + (s : Int)

/-- `datetime.MINYEAR..MAXYEAR` as epoch-second bounds
(0001-01-01T00:00:00 .. 9999-12-31T23:59:59). -/
def MINDT : Int := -62135596800
def MAXDT : Int := 253402300799

def digitsToNat (ds : Str) : Nat :=
  ds.foldl (fun acc c => acc * 10 + (c.toNat - 48)) 0

/-- Take exactly `n` digits. -/
def takeDigits (n : Nat) (s : Str) : Option (Nat × Str) :=
  let ds := (s.take n).takeWhile Char.isDigit
  if ds.length = n then some (digitsToNat ds, s.drop n) else none

/-- `datetime.fromisoformat` (core grammar; see section comment).
Returns epoch seconds, already shifted to UTC when an offset is given. -/
def fromisoformat (s : Str) : Option Int := do
  let (y, r1) ← takeDigits 4 s
  let r2 ← match r1 with | '-' :: t => some t | _ => none
  let (mo, r3) ← takeDigits 2 r2
  let r4 ← match r3 with | '-' :: t => some t | _ => none
  let (d, r5) ← takeDigits 2 r4
  if ¬ (1 ≤ y ∧ 1 ≤ mo ∧ mo ≤ 12 ∧ 1 ≤ d ∧ d ≤ daysInMonth y mo) then
    none
  else
    let hms : Option (Nat × Nat × Nat × Str) :=
      match r5 with
      | [] => some (0, 0, 0, [])
      | _ :: t => do
        let (h, u1) ← takeDigits 2 t
        match u1 with
        | ':' :: u2 => do
          let (mi, u3) ← takeDigits 2 u2
          match u3 with
          | ':' :: u4 => do
            let (sec, u5) ← takeDigits 2 u4
            match u5 with
            | '.' :: u6 =>
              let fs := u6.takeWhile Char.isDigit
              if fs = [] then none else some (h, mi, sec, u6.drop fs.length)
            | _ => some (h, mi, sec, u5)
          | _ => some (h, mi, 0, u3)
        | _ => some (h, 0, 0, u1)
    match hms with
    | none => none
    | some (h, mi, sec, rest) =>
      if ¬ (h ≤ 23 ∧ mi ≤ 59 ∧ sec ≤ 59) then none
      else
        match rest with
        | [] => some (epochOf y mo d h mi sec)
        | sign :: t =>
          if sign = '+' ∨ sign = '-' then do
            let (oh, v1) ← takeDigits 2 t
            let v2 ← match v1 with | ':' :: w => some w | _ => none
            let (om, v3) ← takeDigits 2 v2
            let v4 ← match v3 with
              | ':' :: w => do
                let (os, w2) ← takeDigits 2 w
                if os ≤ 59 then some (os, w2) else none
              | _ => some (0, v3)
            if ¬ (oh ≤ 23 ∧ om ≤ 59 ∧ v4.2 = []) then none
            else
              let off : Int :=
                ((oh : Int) * 3600 + (om : Int) * 60 + (v4.1 : Int)) *
                  (if sign = '+' then 1 else -1)
              some (epochOf y mo d h mi sec - off)
          else none

/-! ### `strptime` for the nine fallback formats -/

inductive FmtTok where
  | lit (c : Char)
  | ws
  | dY
  | dm
  | dd
  | dH
  | dM
  | dS
  | mAbbr
  | mFull
  | aDay
  | tzOff
  | tzName
  deriving Repr

structure TM where
  y : Int := 1900
  mo : Nat := 1
  d : Nat := 1
  h : Nat := 0
  mi : Nat := 0
  s : Nat := 0
  off : Option Int := none

def monthAbbrs : List Str :=
  ["jan".data, "feb".data, "mar".data, "apr".data, "may".data, "jun".data,
   "jul".data, "aug".data, "sep".data, "oct".data, "nov".data, "dec".data]

def monthFulls : List Str :=
  ["january".data, "february".data, "march".data, "april".data, "may".data,
   "june".data, "july".data, "august".data, "september".data,
   "october".data, "november".data, "december".data]

def dayAbbrs : List Str :=
  ["mon".data, "tue".data, "wed".data, "thu".data, "fri".data, "sat".data,
   "sun".data]

/-- Match one name from a list case-insensitively; give its 1-based
index. -/
def matchName (names : List Str) (s : Str) : Option (Nat × Str) :=
  names.enum.firstM fun p =>
    if p.2.isPrefixOf (lowerStr s) then some (p.1 + 1, s.drop p.2.length)
    else none

/-- A two-digit numeric field bounded by `hi` else one digit (the stdlib's
`strptime` alternations for `%d`, `%H`, `%M`, `%S`, `%m`; listed
two-digit alternatives first, then a bare digit). -/
def twoOrOneDigits (lo hi : Nat) (s : Str) : Option (Nat × Str) :=
  match s with
  | c1 :: c2 :: t =>
    if c1.isDigit ∧ c2.isDigit ∧
        lo ≤ digitsToNat [c1, c2] ∧ digitsToNat [c1, c2] ≤ hi then
      some (digitsToNat [c1, c2], t)
    else if c1.isDigit ∧ (lo ≤ 9 ∨ lo ≤ digitsToNat [c1]) ∧
        digitsToNat [c1] ≥ min lo 1 then
      some (digitsToNat [c1], c2 :: t)
    else none
  | [c1] => if c1.isDigit ∧ min lo 1 ≤ digitsToNat [c1] then
      some (digitsToNat [c1], []) else none
  | [] => none

/-- `%z`: `±HH[:]MM[[:]SS[.f+]]` or a literal `Z` (offset seconds). -/
def matchTzOff (s : Str) : Option (Int × Str) :=
  match s with
  | 'Z' :: t => some (0, t)
  | sign :: t =>
    if sign = '+' ∨ sign = '-' then do
      let (oh, u1) ← takeDigits 2 t
      let u2 := match u1 with | ':' :: w => w | _ => u1
      let (om, u3) ← takeDigits 2 u2
      let step : Option (Nat × Str) :=
        match u3 with
        | ':' :: w => takeDigits 2 w
        | _ => match takeDigits 2 u3 with
          | some r => some r
          | none => some (0, u3)
      let (os, u4) ← step
      let u5 :=
        match u4 with
        | '.' :: w =>
          let fs := w.takeWhile Char.isDigit
          if fs ≠ [] ∧ fs.length ≤ 6 then w.drop fs.length else u4
        | _ => u4
      let off : Int := ((oh : Int) * 3600 + (om : Int) * 60 + (os : Int)) *
        (if sign = '+' then 1 else -1)
      some (off, u5)
    else none
  | [] => none

/-- Run a token list over the input (the stdlib compiles formats to an
anchored, case-insensitive regex; whitespace in a format is `\s+`). -/
def runFmt : List FmtTok → Str → TM → Option TM
  | [], [], tm => some tm
  | [], _ :: _, _ => none
  | tok :: rest, s, tm =>
    match tok with
    | .lit c =>
      match s with
      | c' :: s' =>
        if c'.toLower = c.toLower then runFmt rest s' tm else none
      | [] => none
    | .ws =>
      match s with
      | c :: s' =>
        if isSpaceChar c then runFmt rest (s'.dropWhile isSpaceChar) tm
        else none
      | [] => none
    | .dY => do
      let (y, s') ← takeDigits 4 s
      runFmt rest s' { tm with y := (y : Int) }
    | .dm => do
      let (v, s') ← twoOrOneDigits 1 12 s
      runFmt rest s' { tm with mo := v }
    | .dd => do
      let (v, s') ← twoOrOneDigits 1 31 s
      runFmt rest s' { tm with d := v }
    | .dH => do
      let (v, s') ← twoOrOneDigits 0 23 s
      runFmt rest s' { tm with h := v }
    | .dM => do
      let (v, s') ← twoOrOneDigits 0 59 s
      runFmt rest s' { tm with mi := v }
    | .dS => do
      let (v, s') ← twoOrOneDigits 0 61 s
      runFmt rest s' { tm with s := v }
    | .mAbbr => do
      let (v, s') ← matchName monthAbbrs s
      runFmt rest s' { tm with mo := v }
    | .mFull => do
      let (v, s') ← matchName monthFulls s
      runFmt rest s' { tm with mo := v }
    | .aDay => do
      let (_, s') ← matchName dayAbbrs s
      runFmt rest s' tm
    | .tzOff => do
      let (off, s') ← matchTzOff s
      runFmt rest s' { tm with off := some off }
    | .tzName => do
      let (_, s') ← matchName ["utc".data, "gmt".data] s
      runFmt rest s' tm

def lits (cs : Str) : List FmtTok := cs.map FmtTok.lit

/-- The `formats` list of `parse_time` (time_parser.py lines 106-116). -/
def fallbackFormats : List (List FmtTok) :=
  [[.dY, .lit '-', .dm, .lit '-', .dd, .ws, .dH, .lit ':', .dM],
   [.dY, .lit '-', .dm, .lit '-', .dd, .ws, .dH, .lit ':', .dM, .lit ':',
    .dS],
   [.dY, .lit '-', .dm, .lit '-', .dd, .lit 'T', .dH, .lit ':', .dM,
    .lit ':', .dS],
   [.aDay, .lit ',', .ws, .dd, .ws, .mAbbr, .ws, .dY, .ws, .dH, .lit ':',
    .dM, .lit ':', .dS, .ws, .tzOff],
   [.aDay, .lit ',', .ws, .dd, .ws, .mAbbr, .ws, .dY, .ws, .dH, .lit ':',
    .dM, .lit ':', .dS, .ws] ++ lits "GMT".data,
   [.aDay, .lit ',', .ws, .dd, .ws, .mAbbr, .ws, .dY, .ws, .dH, .lit ':',
    .dM, .lit ':', .dS, .ws, .tzName],
   [.dd, .ws, .mAbbr, .ws, .dY, .ws, .dH, .lit ':', .dM, .lit ':', .dS],
   [.mAbbr, .ws, .dd, .lit ',', .ws, .dY],
   [.mFull, .ws, .dd, .lit ',', .ws, .dY]]

/-- `datetime.strptime` for one format, then the `datetime` constructor's
calendar validation, then the naive-to-UTC normalization of the source. -/
def tryFormat (fmt : List FmtTok) (s : Str) : Option Int := do
  let tm ← runFmt fmt s {}
  if 1 ≤ tm.y ∧ tm.d ≤ daysInMonth tm.y tm.mo ∧ tm.s ≤ 59 then
    some (epochOf tm.y tm.mo tm.d tm.h tm.mi tm.s - (tm.off).getD 0)
  else none

def tryFormats (s : Str) : Option Int :=
  (fallbackFormats.map fun fmt => tryFormat fmt s).reduceOption.head?

/-! ### `relative_to_absolute` and `parse_time` -/

/-- The unit alternation of the relative-time regex, with the seconds each
unit denotes (`month` = 30 days, `year` = 365 days). -/
def unitTable : List (Str × Int) :=
  [("second".data, 1), ("minute".data, 60), ("hour".data, 3600),
   ("day".data, 86400), ("week".data, 604800), ("month".data, 2592000),
   ("year".data, 31536000)]

def matchUnit (s : Str) : Option (Int × Str) :=
  unitTable.firstM fun p =>
    if p.1.isPrefixOf s then some (p.2, s.drop p.1.length) else none

/-- Try the `ago` pattern anchored at the current position:
`(\d+)\s*(second|minute|hour|day|week|month|year)s?\s*ago`. -/
def agoAt (s : Str) : Option (Nat × Int) := do
  let ds := s.takeWhile Char.isDigit
  if ds = [] then none
  else
    let r1 := (s.drop ds.length).dropWhile isSpaceChar
    let (u, r2) ← matchUnit r1
    let r3 := match r2 with | 's' :: t => t | _ => r2
    let r4 := r3.dropWhile isSpaceChar
    if "ago".data.isPrefixOf r4 then some (digitsToNat ds, u) else none

/-- `re.search` for the `ago` pattern: leftmost start position wins. -/
def searchAgo : Str → Option (Nat × Int)
  | [] => none
  | c :: rest =>
    match agoAt (c :: rest) with
    | some r => some r
    | none => searchAgo rest

/-- `relative_to_absolute` (time_parser.py lines 13-60).  `now.replace
(hour=12, minute=0, second=0, microsecond=0)` floors the UTC day. -/
def relative_to_absolute (relative : Str) (now : Int) : Option Int :=
  if relative = [] then none
  else
    let tl := stripWs (lowerStr relative)
    if tl = "today".data then some (now.fdiv 86400 * 86400 + 43200)
    else if tl = "yesterday".data then
      some ((now - 86400).fdiv 86400 * 86400 + 43200)
    else
      (searchAgo tl).map fun vu => now - (vu.1 : Int) * vu.2

inductive TimeIn where
  | str (s : Str)
  | num (n : Int)
  deriving Repr, DecidableEq

/-- `str.replace('Z', '+00:00')` (all occurrences). -/
def replaceZ (s : Str) : Str :=
  s.flatMap fun c => if c = 'Z' then "+00:00".data else [c]

/-- `parse_time` (time_parser.py lines 63-128).  The numeric branch
models `fromtimestamp`'s caught `ValueError`/`OSError` as the `datetime`
range check; the `OverflowError` that CPython's datetime arithmetic can
additionally raise is not caught by the source at all — see
`parse_time_checked` below.  Note `if not time_str` makes the number `0`
and the empty string unparseable. -/
def parse_time (t : TimeIn) (now : Int) : Option Int :=
  match t with
  | .num n =>
    if n = 0 then none
    else if MINDT ≤ n ∧ n ≤ MAXDT then some n else none
  | .str s0 =>
    if s0 = [] then none
    else
      let s := stripWs s0
      match relative_to_absolute s now with
      | some d => some d
      | none =>
        match fromisoformat (replaceZ s) with
        | some d => some d
        | none => tryFormats s

/-- `relative_to_absolute` with CPython's `datetime` arithmetic bounds
made explicit: a subtraction whose result leaves the representable range
raises `OverflowError`, which no caller catches. -/
def relative_to_absolute_checked (relative : Str) (now : Int) :
    Except Unit (Option Int) :=
  if relative = [] then .ok none
  else
    let tl := stripWs (lowerStr relative)
    if tl = "today".data then .ok (some (now.fdiv 86400 * 86400 + 43200))
    else if tl = "yesterday".data then
      .ok (some ((now - 86400).fdiv 86400 * 86400 + 43200))
    else
      match searchAgo tl with
      | none => .ok none
      | some vu =>
        let r := now - (vu.1 : Int) * vu.2
        if (vu.1 : Int) * vu.2 > 999999999 * 86400 then .error ()
        else if MINDT ≤ r ∧ r ≤ MAXDT then .ok (some r)
        else .error ()

/-- `parse_time` with the uncaught `OverflowError` of the relative stage
made explicit. -/
def parse_time_checked (t : TimeIn) (now : Int) : Except Unit (Option Int) :=
  match t with
  | .num n =>
    if n = 0 then .ok none
    else if MINDT ≤ n ∧ n ≤ MAXDT then .ok (some n) else .ok none
  | .str s0 =>
    if s0 = [] then .ok none
    else
      let s := stripWs s0
      match relative_to_absolute_checked s now with
      | .error e => .error e
      | .ok (some d) => .ok (some d)
      | .ok none =>
        match fromisoformat (replaceZ s) with
        | some d => .ok (some d)
        | none => .ok (tryFormats s)

/-- `calculate_hours_ago` (time_parser.py lines 172-187). -/
def calculate_hours_ago (t : TimeIn) (now : Int) : Option ℚ :=
  (parse_time t now).map fun d => ((now - d : ℚ)) / 3600

/-- `recency_bonus` (time_parser.py lines 190-208). -/
def recency_bonus (t : TimeIn) (now : Int) : Int :=
  match calculate_hours_ago t now with
  | none => 0
  | some h => if h < 2 then 20 else if h < 6 then 10 else 0

/-! ## News items (dedup.py data model)

A Python item dict is modelled as a structure covering every key the
module reads or writes.  `.get` defaults are reproduced: keys whose reads
all use one default are plain fields with that default standing for
"absent" (`title`, `url`, `content`, `time`, `time_iso`,
`source_type`, `heat`); keys read with differing defaults at different
sites (`source`) or defaulted structurally (`sources`, `source_count`)
are `Option`s.  `heat` is a recursive string-or-dict value, exactly as the
dynamically typed source allows. -/

inductive HeatV where
  | s (v : Str)
  | d (entries : List (Str × HeatV))
  deriving Repr

mutual

def HeatV.decEq : (a b : HeatV) → Decidable (a = b)
  | .s x, .s y =>
    match List.hasDecEq x y with
    | isTrue h => isTrue (by rw [h])
    | isFalse h => isFalse (by intro hh; injection hh; contradiction)
  | .s _, .d _ => isFalse (by intro h; cases h)
  | .d _, .s _ => isFalse (by intro h; cases h)
  | .d x, .d y =>
    match HeatV.decEqL x y with
    | isTrue h => isTrue (by rw [h])
    | isFalse h => isFalse (by intro hh; injection hh; contradiction)

def HeatV.decEqL : (a b : List (Str × HeatV)) → Decidable (a = b)
  | [], [] => isTrue rfl
  | [], _ :: _ => isFalse (by intro h; cases h)
  | _ :: _, [] => isFalse (by intro h; cases h)
  | p :: r1, q :: r2 =>
    match List.hasDecEq p.1 q.1, HeatV.decEq p.2 q.2, HeatV.decEqL r1 r2 with
    | isTrue h1, isTrue h2, isTrue h3 =>
      isTrue (by rw [show p = q from Prod.ext h1 h2, h3])
    | isFalse h1, _, _ =>
      isFalse (by intro hh; injection hh with hh1 hh2
                  exact h1 (congrArg Prod.fst hh1))
    | _, isFalse h2, _ =>
      isFalse (by intro hh; injection hh with hh1 hh2
                  exact h2 (congrArg Prod.snd hh1))
    | _, _, isFalse h3 =>
      isFalse (by intro hh; injection hh with hh1 hh2; exact h3 hh2)

end

instance : DecidableEq HeatV := HeatV.decEq

structure Alt where
  source : Str
  source_type : Str
  url : Str
  title : Str
  deriving Repr, DecidableEq

structure Item where
  title : Option Str := none
  url : Str := []
  content : Str := []
  time : Str := []
  time_iso : Str := []
  source : Option Str := none
  source_type : Str := "unknown".data
  heat : HeatV := .s []
  sources : Option (List Str) := none
  source_count : Option Nat := none
  dedup_group_id : Str := []
  alternates : List Alt := []
  deriving Repr, DecidableEq

/-- `item.get('title', '')` — every read of the title key except the
direct subscript at dedup.py line 372 uses this defaulted form. -/
def Item.titleD (it : Item) : Str := it.title.getD []

inductive DupConfidence where
  | HIGH
  | MEDIUM
  | LOW
  | NONE
  deriving Repr, DecidableEq

/-- `classify_duplicate` (dedup.py lines 235-293).  The time-proximity
check of the `≥ 0.80` branch is preserved verbatim: both of its arms
return `MEDIUM`. -/
def classify_duplicate (item1 item2 : Item) (now : Int) : DupConfidence :=
  let url1 := canonicalize_url item1.url
  let url2 := canonicalize_url item2.url
  if url1 ≠ [] ∧ url2 ≠ [] ∧ url1 = url2 then .HIGH
  else
    let content1 := item1.content
    let content2 := item2.content
    let hash1 := content_hash content1
    let hash2 := content_hash content2
    if content1 ≠ [] ∧ content2 ≠ [] ∧ hash1 ≠ [] ∧ hash2 ≠ [] ∧
        hash1 = hash2 then .HIGH
    else
      let title_sim := title_similarity item1.titleD item2.titleD
      if title_sim ≥ 8/10 then
        let time1 := parse_time
          (.str (if item1.time ≠ [] then item1.time else item1.time_iso)) now
        let time2 := parse_time
          (.str (if item2.time ≠ [] then item2.time else item2.time_iso)) now
        match time1, time2 with
        | some t1, some t2 =>
          if (t1 - t2).natAbs ≤ 86400 then .MEDIUM else .MEDIUM
        | _, _ => .MEDIUM
      else if title_sim ≥ 7/10 then .LOW
      else .NONE

/-- `are_duplicates` (dedup.py lines 296-315).  The `title_threshold`
parameter is accepted and ignored, exactly as in the source. -/
def are_duplicates (item1 item2 : Item) (title_threshold : ℚ) (now : Int) :
    Bool :=
  let confidence := classify_duplicate item1 item2 now
  confidence = .HIGH ∨ confidence = .MEDIUM

/-! ## Merging (dedup.py lines 318-460) -/

/-- Lexicographic code-point order on strings (Python `str` `<`). -/
def strLe : Str → Str → Bool
  | [], _ => true
  | _ :: _, [] => false
  | c :: cs, d :: ds => if c = d then strLe cs ds else decide (c < d)

/-- Stable insertion: `x` goes in front of the first element it is `le`
to, i.e. before later-arriving equals. -/
def insortLe {α : Type} (le : α → α → Bool) (x : α) : List α → List α
  | [] => [x]
  | y :: ys => if le x y then x :: y :: ys else y :: insortLe le x ys

/-- Python's `sorted`/`list.sort` (Timsort) is a stable sort, and a
stable sort under a total preorder is unique, so stable insertion sort
models it exactly. -/
def pySorted {α : Type} (le : α → α → Bool) : List α → List α
  | [] => []
  | x :: xs => insortLe le x (pySorted le xs)

/-- `_generate_dedup_group_id` (dedup.py lines 318-323). -/
def _generate_dedup_group_id (items : List Item) : Str :=
  let urls := pySorted strLe (items.map fun it => canonicalize_url it.url)
  (md5_hexdigest (List.intercalate ['|'] urls)).take 12

def source_priority (st : Str) : Nat :=
  if st = "original_reporting".data then 3
  else if st = "wire".data then 2
  else if st = "aggregator".data then 1
  else 0

/-- Python `max(l, key=f)`: first element with maximal key. -/
def pyMaxBy (f : Item → Nat × Nat) : List Item → Option Item
  | [] => none
  | x :: xs =>
    some <| xs.foldl
      (fun best y =>
        if (f best).1 < (f y).1 ∨
            ((f best).1 = (f y).1 ∧ (f best).2 < (f y).2) then y else best)
      x

/-- `_select_best_representative` (dedup.py lines 326-344). -/
def _select_best_representative (items : List Item) : Item :=
  (pyMaxBy (fun x => (source_priority x.source_type, x.titleD.length))
    items).getD {}

def aggregator_domains : List Str :=
  ["reddit.com".data, "news.ycombinator.com".data, "lobste.rs".data]

/-- The URL-selection priority of `merge_items`. -/
def url_priority (it : Item) : Nat :=
  let is_agg := aggregator_domains.any fun d => containsSub d it.url
  if it.source_type = "original_reporting".data ∧ ¬ is_agg then 4
  else if it.source_type = "wire".data then 3
  else if ¬ is_agg then 2
  else 1

/-- Source slug of the singleton branch:
`source.lower().replace(' ', '_')`. -/
def slugSingle (s : Str) : Str :=
  (lowerStr s).map fun c => if c = ' ' then '_' else c

/-- Source slug of the merge branch:
`source.lower().replace(' ', '_').replace('/', '_')`. -/
def slugMulti (s : Str) : Str :=
  (lowerStr s).map fun c => if c = ' ' ∨ c = '/' then '_' else c

/-- Python dict assignment: overwrite in place or append. -/
def dictSet : List (Str × HeatV) → Str → HeatV → List (Str × HeatV)
  | [], k, v => [(k, v)]
  | (k', v') :: rest, k, v =>
    if k' = k then (k, v) :: rest else (k', v') :: dictSet rest k v

/-- Python `min(l, key=f)` over `(time, time_iso, parsed)` triples: first
triple with minimal parsed time. -/
def pyMinParsed : List (Str × Str × Int) → Option (Str × Str × Int)
  | [] => none
  | x :: xs => some <| xs.foldl (fun best y => if y.2.2 < best.2.2 then y else best) x

/-- `merge_items` (dedup.py lines 347-460). -/
def merge_items (items : List Item) (now : Int) : Item :=
  match items with
  | [] => {}
  | [item] =>
    { item with
      sources := some [item.source.getD "Unknown".data]
      source_count := some 1
      heat := .d [(slugSingle (item.source.getD "unknown".data), item.heat)]
      dedup_group_id := _generate_dedup_group_id [item]
      alternates := [] }
  | _ =>
    let best_title :=
      ((pyMaxBy (fun x => (x.titleD.length, 0)) items).getD {}).titleD
    let best_url := ((pyMaxBy (fun x => (url_priority x, 0)) items).getD {}).url
    let times_parsed := items.filterMap fun it =>
      (parse_time (.str it.time) now).map fun p => (it.time, it.time_iso, p)
    let earliest : Str × Str :=
      match pyMinParsed times_parsed with
      | some e => (e.1, e.2.1)
      | none =>
        ((items.headD {}).time, (items.headD {}).time_iso)
    let sources := items.foldl
      (fun acc it =>
        let s := it.source.getD "Unknown".data
        if s ∈ acc then acc else acc ++ [s])
      []
    let heat_dict := items.foldl
      (fun acc it =>
        dictSet acc (slugMulti (it.source.getD "Unknown".data)) it.heat)
      []
    let contents := (items.map Item.content).filter (· ≠ [])
    let best_content :=
      match contents with
      | [] => []
      | c :: cs => cs.foldl (fun best y => if best.length < y.length then y else best) c
    let best_rep := _select_best_representative items
    let alternates := (items.filter (· ≠ best_rep)).map fun it =>
      { source := it.source.getD "Unknown".data
        source_type := it.source_type
        url := it.url
        title := it.titleD : Alt }
    { title := some best_title
      url := best_url
      sources := some sources
      source_count := some sources.length
      heat := .d heat_dict
      time := earliest.1
      time_iso := earliest.2
      dedup_group_id := _generate_dedup_group_id items
      alternates := alternates
      content := best_content }

/-! ## Scoring (dedup.py lines 463-523)

`parse_heat` calls `re.search` on its argument; when a merged story is fed
back through the pipeline, that argument is a dict and CPython raises
`TypeError`, modelled as `Except.error`. -/

def CREDIBLE_SOURCES : List Str :=
  ["bbc".data, "bbc news".data, "reuters".data, "ap news".data,
   "bloomberg".data, "techcrunch".data, "ars technica".data,
   "the verge".data, "cnbc".data, "yahoo finance".data]

/-- Python `int()` on a float: truncation toward zero. -/
def pyInt (q : ℚ) : Int := q.num / (q.den : Int)

/-- Python `min(a, b)` (first argument kept on ties). -/
def minQ (a b : ℚ) : ℚ := if b < a then b else a

def isHeatNumChar (c : Char) : Bool := c.isDigit || c = ',' || c = '.'

/-- `re.search(r'([\d,.]+)\s*([kKmM])?', s)`: leftmost maximal run of the
numeric class, optional whitespace, optional multiplier letter. -/
def heatSearch : Str → Option (Str × Option Char)
  | [] => none
  | c :: rest =>
    if isHeatNumChar c then
      let run := (c :: rest).takeWhile isHeatNumChar
      let after := ((c :: rest).drop run.length).dropWhile isSpaceChar
      some (run,
        match after with
        | m :: _ =>
          if m = 'k' ∨ m = 'K' ∨ m = 'm' ∨ m = 'M' then some m else none
        | [] => none)
    else heatSearch rest

/-- Python `float` on a comma-stripped `[\d.]*` string. -/
def parseFloatQ (s : Str) : Option ℚ :=
  if s.any Char.isDigit ∧ s.count '.' ≤ 1 then
    let ip := s.takeWhile (· ≠ '.')
    let fp := s.drop (ip.length + 1)
    some ((digitsToNat ip : ℚ) + (digitsToNat fp : ℚ) / (10 ^ fp.length : ℚ))
  else none

/-- `parse_heat` (dedup.py lines 197-218).  A non-empty dict argument
(only possible for re-fed merged stories) hits `re.search` and raises
`TypeError`. -/
def parse_heat (heat : HeatV) (source : Str) : Except Unit Int :=
  match heat with
  | .d entries => if entries = [] then .ok 0 else .error ()
  | .s hs =>
    if hs = [] then .ok 0
    else
      match heatSearch hs with
      | none => .ok 0
      | some (numStr, mult) =>
        match parseFloatQ (numStr.filter (· ≠ ',')) with
        | none => .ok 0
        | some v =>
          let v := if mult = some 'k' ∨ mult = some 'K' then v * 1000
            else if mult = some 'm' ∨ mult = some 'M' then v * 1000000
            else v
          .ok (pyInt v)

/-- `normalize_heat` (dedup.py lines 221-232). -/
def normalize_heat (heat_value : Int) (source_type : Str) : ℚ :=
  let sl := lowerStr source_type
  if containsSub "hacker".data sl ∨ containsSub "hn".data sl then
    minQ 100 ((heat_value : ℚ) / 10)
  else if containsSub "reddit".data sl then minQ 100 ((heat_value : ℚ) / 500)
  else if containsSub "github".data sl then minQ 100 ((heat_value : ℚ) / 1000)
  else 50

/-- The three scores, in the dict-literal order
`trending_score, signal_score, combined_score`. -/
def calculate_scores (item : Item) (now : Int) : Except Unit (ℚ × ℚ × ℚ) := do
  let source_count : Int := (item.source_count.getD 1 : Int)
  let sources := item.sources.getD [item.source.getD []]
  let normalized_heat : ℚ ←
    match item.heat with
    | .s hs => do
      let hv ← parse_heat (.s hs) (item.source.getD [])
      pure (normalize_heat hv (item.source.getD []))
    | .d entries => do
      let vals ← entries.mapM fun kv => do
        let hv ← parse_heat kv.2 kv.1
        pure (normalize_heat hv kv.1)
      match vals with
      | [] => pure 0
      | v :: vs => pure (vs.foldl (fun best y => if best < y then y else best) v)
  let credible_count : Int := sources.countP fun s =>
    CREDIBLE_SOURCES.any fun c => containsSub c (lowerStr s)
  let bonus : Int := recency_bonus (.str item.time) now
  pure (normalized_heat + bonus,
    (source_count * 100 + credible_count * 50 + bonus : Int),
    (source_count * 50 : Int) + normalized_heat + (credible_count * 30 + bonus : Int))

/-- `calculate_score` (dedup.py lines 516-523). -/
def calculate_score (item : Item) (now : Int) : Except Unit ℚ := do
  let scores ← calculate_scores item now
  pure scores.2.2

/-! ## The orchestrator (dedup.py lines 526-589) -/

/-- One pass of the seed-anchored grouping loop.  The fuel (one unit per
claimed seed) keeps the recursion structural; started at the input
length it can never run out, since each round consumes the seed. -/
def groupItemsGo : Nat → List Item → ℚ → Int → List (List Item)
  | _, [], _, _ => []
  | fuel + 1, seed :: rest, th, now =>
    let dups := rest.filter fun other => are_duplicates seed other th now
    let remaining := rest.filter fun other => ¬ are_duplicates seed other th now
    (seed :: dups) :: groupItemsGo fuel remaining th now
  | 0, l, _, _ => [l]

def groupItems (items : List Item) (th : ℚ) (now : Int) : List (List Item) :=
  groupItemsGo items.length items th now

/-- `scores.get(f"{rank_by}_score", scores['combined_score'])`: the dict
holds exactly the three score keys. -/
def scoresGet (sc : ℚ × ℚ × ℚ) (key : Str) : ℚ :=
  if key = "trending_score".data then sc.1
  else if key = "signal_score".data then sc.2.1
  else if key = "combined_score".data then sc.2.2
  else sc.2.2

/-- `deduplicate` (dedup.py lines 526-589).  The stats dict is modelled as
an association list in the literal's key order; note the empty-input
branch of the source builds a three-key dict without `sources_scanned`.
`list.sort(key=..., reverse=True)` is a stable descending sort. -/
def deduplicate (items : List Item) (title_threshold : ℚ) (rank_by : Str)
    (now : Int) : Except Unit (List Item × List (Str × Nat)) :=
  if items = [] then
    .ok ([], [("raw_items".data, 0), ("after_dedup".data, 0),
      ("duplicates_merged".data, 0)])
  else do
    let groups := groupItems items title_threshold now
    let merged_items := groups.map fun g => merge_items g now
    let score_key := rank_by ++ "_score".data
    let scored ← merged_items.mapM fun it => do
      let scores ← calculate_scores it now
      pure (it, scoresGet scores score_key)
    let sorted := pySorted (fun a b => decide (b.2 ≤ a.2)) scored
    let out := sorted.map Prod.fst
    let sources_scanned :=
      ((items.map fun it => it.source.getD []).foldl
        (fun acc s => if s ∈ acc then acc else s :: acc) []).length
    .ok (out,
      [("raw_items".data, items.length),
       ("after_dedup".data, merged_items.length),
       ("duplicates_merged".data, items.length - merged_items.length),
       ("sources_scanned".data, sources_scanned)])

deriving instance DecidableEq for Except

/-! ## Claim-side definitions and concrete inputs -/

/-- The classifier exactly as §4.5 of the specification words it — in
particular with no time inspection at all (claim-side definition, to be
compared with `classify_duplicate`). -/
def classify_spec (item1 item2 : Item) : DupConfidence :=
  if canonicalize_url item1.url ≠ [] ∧ canonicalize_url item2.url ≠ [] ∧
      canonicalize_url item1.url = canonicalize_url item2.url then .HIGH
  else if item1.content ≠ [] ∧ item2.content ≠ [] ∧
      content_hash item1.content = content_hash item2.content then .HIGH
  else if title_similarity item1.titleD item2.titleD ≥ 8/10 then .MEDIUM
  else if title_similarity item1.titleD item2.titleD ≥ 7/10 then .LOW
  else .NONE

/-- A plain one-source news item, as the fetch layer produces it. -/
def sampleItem : Item :=
  { source := some "HN".data
    title := some "Some Story".data
    url := "https://a.com".data
    heat := .s "100 points".data }

/-- Two items whose free-text times both parse (to 2026-01-25 and
2026-01-20). -/
def itemJan25 : Item :=
  { title := some "A story".data, time := "Jan 25, 2026".data,
    time_iso := "2026-01-25T00:00:00+00:00".data }

def itemJan20 : Item :=
  { title := some "Same story again".data, time := "Jan 20, 2026".data,
    time_iso := "2026-01-20T00:00:00+00:00".data }

/-- Specification-side recurrence for the self-comparison proof of
`find_longest_match`: the value the inner loop computes in row `i` at
column `j` when both sequences are `s` and the window is `[0, n)`. -/
def kVal (s : Str) (n : Nat) : Nat → Nat → Nat
  | 0, _ => 1
  | _ + 1, 0 => 1
  | i + 1, j + 1 =>
    (if j < n ∧ s.getD j ' ' = s.getD i ' ' ∧
        ¬ popularB s (s.getD i ' ') then kVal s n i j else 0) + 1

/-- The `j2len` table functionally, after row `i` has been processed. -/
def rowFun (s : Str) (n i j : Nat) : Nat :=
  if j < n ∧ s.getD j ' ' = s.getD i ' ' ∧ ¬ popularB s (s.getD i ' ') then
    kVal s n i j
  else 0

/-- Hypothesis classes for the `canonicalize_url` idempotence theorem:
URL components that `urlsplit` parses back out of a reassembled URL
unchanged. -/
def goodScheme (s : Str) : Bool :=
  s ≠ [] && s.all isSchemeChar && (s.getD 0 ' ').isAlpha && lowerStr s = s

def goodNetloc (nl : Str) : Bool :=
  nl ≠ [] && nl.all fun c =>
    !(c = '/' || c = '?' || c = '#' || c = '[' || c = ']' ||
      c = '\t' || c = '\r' || c = '\n')

def goodPath (p : Str) : Bool :=
  (p = [] || p.getD 0 ' ' = '/') && p.all fun c =>
    !(c = '?' || c = '#' || c = ';' || c = '\t' || c = '\r' || c = '\n')

def goodQuery (q : Str) : Bool :=
  q.all fun c => !(c = '#' || c = '\t' || c = '\r' || c = '\n')

/-- Components on which the per-part rewrites of `canonicalize_url` are
the identity. -/
def stableNetloc (nl : Str) : Bool :=
  lowerStr nl = nl && !"www.".data.isPrefixOf nl &&
  !"amp.".data.isPrefixOf nl && !"m.".data.isPrefixOf nl &&
  !"mobile.".data.isPrefixOf nl &&
  !containsSub ".cdn.ampproject.org".data nl

def stablePath (p : Str) : Bool :=
  !"/amp/".data.isPrefixOf p && !"/amp".data.isPrefixOf p &&
  !"/amp".data.isSuffixOf p && !"/amp/".data.isSuffixOf p &&
  rstripSlash p = p

def stableQuery (q : Str) : Bool :=
  q = [] ||
  ((parse_qs q).filter (fun kv => ¬ lowerStr kv.1 ∈ TRACKING_PARAMS)
      = parse_qs q &&
    parse_qs q ≠ [] && urlencode (parse_qs q) = q)

/-- `classify_duplicate` (dedup.py lines 235-293) with the uncaught
`OverflowError` of the two `parse_time` calls in its time-proximity check
made explicit: an overflowing relative timestamp aborts classification
instead of returning a confidence. -/
def classify_duplicate_checked (item1 item2 : Item) (now : Int) :
    Except Unit DupConfidence :=
  let url1 := canonicalize_url item1.url
  let url2 := canonicalize_url item2.url
  if url1 ≠ [] ∧ url2 ≠ [] ∧ url1 = url2 then .ok .HIGH
  else
    let content1 := item1.content
    let content2 := item2.content
    let hash1 := content_hash content1
    let hash2 := content_hash content2
    if content1 ≠ [] ∧ content2 ≠ [] ∧ hash1 ≠ [] ∧ hash2 ≠ [] ∧
        hash1 = hash2 then .ok .HIGH
    else
      let title_sim := title_similarity item1.titleD item2.titleD
      if title_sim ≥ 8/10 then
        match parse_time_checked
            (.str (if item1.time ≠ [] then item1.time else item1.time_iso))
            now with
        | .error e => .error e
        | .ok time1 =>
          match parse_time_checked
              (.str (if item2.time ≠ [] then item2.time else item2.time_iso))
              now with
          | .error e => .error e
          | .ok time2 =>
            match time1, time2 with
            | some t1, some t2 =>
              if (t1 - t2).natAbs ≤ 86400 then .ok .MEDIUM else .ok .MEDIUM
            | _, _ => .ok .MEDIUM
      else if title_sim ≥ 7/10 then .ok .LOW
      else .ok .NONE

/-- The earliest-time loop of `merge_items` with the uncaught
`OverflowError` of `parse_time` made explicit: the `(time, time_iso,
parsed)` triples of the members whose time parses, in order, aborting at
the first overflow. -/
def checkedTimes (now : Int) : List Item → Except Unit (List (Str × Str × Int))
  | [] => .ok []
  | it :: rest =>
    match parse_time_checked (.str it.time) now with
    | .error e => .error e
    | .ok none => checkedTimes now rest
    | .ok (some p) =>
      (checkedTimes now rest).map fun l => (it.time, it.time_iso, p) :: l

/-- `merge_items` (dedup.py lines 347-460) with its two error paths made
explicit: the direct `['title']` subscript at line 372 raises `KeyError`
when the longest-title member lacks the key (only possible when every
member's defaulted title is empty, so the first member is selected), and
the `parse_time` calls of the earliest-time loop can raise
`OverflowError`.  The subscript runs before the time loop, as in the
source. -/
def merge_items_checked (items : List Item) (now : Int) : Except Unit Item :=
  match items with
  | [] => .ok {}
  | [item] =>
    .ok { item with
      sources := some [item.source.getD "Unknown".data]
      source_count := some 1
      heat := .d [(slugSingle (item.source.getD "unknown".data), item.heat)]
      dedup_group_id := _generate_dedup_group_id [item]
      alternates := [] }
  | _ =>
    match ((pyMaxBy (fun x => (x.titleD.length, 0)) items).getD {}).title with
    | none => .error ()
    | some best_title =>
      let best_url :=
        ((pyMaxBy (fun x => (url_priority x, 0)) items).getD {}).url
      match checkedTimes now items with
      | .error e => .error e
      | .ok times_parsed =>
        let earliest : Str × Str :=
          match pyMinParsed times_parsed with
          | some e => (e.1, e.2.1)
          | none =>
            ((items.headD {}).time, (items.headD {}).time_iso)
        let sources := items.foldl
          (fun acc it =>
            let s := it.source.getD "Unknown".data
            if s ∈ acc then acc else acc ++ [s])
          []
        let heat_dict := items.foldl
          (fun acc it =>
            dictSet acc (slugMulti (it.source.getD "Unknown".data)) it.heat)
          []
        let contents := (items.map Item.content).filter (· ≠ [])
        let best_content :=
          match contents with
          | [] => []
          | c :: cs =>
            cs.foldl (fun best y => if best.length < y.length then y else best) c
        let best_rep := _select_best_representative items
        let alternates := (items.filter (· ≠ best_rep)).map fun it =>
          { source := it.source.getD "Unknown".data
            source_type := it.source_type
            url := it.url
            title := it.titleD : Alt }
        .ok { title := some best_title
              url := best_url
              sources := some sources
              source_count := some sources.length
              heat := .d heat_dict
              time := earliest.1
              time_iso := earliest.2
              dedup_group_id := _generate_dedup_group_id items
              alternates := alternates
              content := best_content }

/-! # Theorems -/

theorem content_hash_ne_nil (c : Str) (h : c ≠ []) : content_hash c ≠ [] := by
  simp [content_hash, if_neg h, md5_hexdigest]

/-- The time-proximity block of the `≥ 0.80` branch returns `MEDIUM` on
every path. -/
theorem classify_eq_spec_aux (a b : Item) (now : Int) :
    classify_duplicate a b now = classify_spec a b := by
  unfold classify_duplicate classify_spec
  by_cases h1 : canonicalize_url a.url ≠ [] ∧ canonicalize_url b.url ≠ [] ∧
      canonicalize_url a.url = canonicalize_url b.url
  · rw [if_pos h1, if_pos h1]
  · rw [if_neg h1, if_neg h1]
    by_cases h2 : a.content ≠ [] ∧ b.content ≠ [] ∧
        content_hash a.content = content_hash b.content
    · rw [if_pos ⟨h2.1, h2.2.1, content_hash_ne_nil _ h2.1,
        content_hash_ne_nil _ h2.2.1, h2.2.2⟩, if_pos h2]
    · rw [if_neg (fun hc => h2 ⟨hc.1, hc.2.1, hc.2.2.2.2⟩), if_neg h2]
      by_cases h3 : title_similarity a.titleD b.titleD ≥ 8/10
      · rw [if_pos h3, if_pos h3]
        cases parse_time (.str (if a.time ≠ [] then a.time else a.time_iso))
            now with
        | none =>
          cases parse_time (.str (if b.time ≠ [] then b.time else b.time_iso))
              now with
          | none => rfl
          | some _ => rfl
        | some t1 =>
          cases parse_time (.str (if b.time ≠ [] then b.time else b.time_iso))
              now with
          | none => rfl
          | some t2 => by_cases h4 : (t1 - t2).natAbs ≤ 86400 <;> simp [h4]
      · rw [if_neg h3, if_neg h3]

/-- On the collapsed (error-free) time model, `classify_duplicate`
matches the four-tier description: HIGH on equal non-empty canonical
URLs, else HIGH on equal fingerprints of non-empty contents, else MEDIUM
at title similarity ≥ 0.80 independently of the `now` instant, else LOW
at ≥ 0.70, else NONE.  Where the `OverflowError` of the time check makes
this collapse unfaithful, see `classify_duplicate_checked_ok`. -/
theorem classify_duplicate_matches_spec (a b : Item) (now : Int) :
    classify_duplicate a b now = classify_spec a b :=
  classify_eq_spec_aux a b now

/-- **C2.** `are_duplicates` is true exactly on HIGH or MEDIUM
classifications, for every value of the (ignored) threshold parameter;
LOW never makes it true. -/
theorem are_duplicates_iff_high_or_medium (a b : Item) (th : ℚ) (now : Int) :
    (are_duplicates a b th now = true ↔
      (classify_duplicate a b now = .HIGH ∨
        classify_duplicate a b now = .MEDIUM)) ∧
    (classify_duplicate a b now = .LOW → are_duplicates a b th now = false) := by
  constructor
  · simp [are_duplicates]
  · intro hl
    simp [are_duplicates, hl]

/-- Closed instance of the C2 theorem: a same-URL pair is a duplicate
even at threshold `0.95`. -/
theorem are_duplicates_iff_high_or_medium_witness :
    are_duplicates { url := "https://example.com/article?utm_source=a".data }
      { url := "https://example.com/article?utm_source=b".data,
        title := some "Entirely different".data } (95/100) 0 = true :=
  (are_duplicates_iff_high_or_medium _ _ (95/100) 0).1.mpr
    (Or.inl (by decide))

/-- **C3** (counterexample): on empty input the stats dict of the source
has only three keys; `sources_scanned` is absent, not zero. -/
theorem deduplicate_empty_no_sources_scanned :
    (deduplicate [] (7/10) "combined".data 0).map
      (fun r => r.2.lookup "sources_scanned".data) = .ok none := by
  decide

/-- **C3** (amended): for empty input, `deduplicate` returns an empty
story list and a stats record with `raw_items`, `after_dedup` and
`duplicates_merged` all present and zero; `sources_scanned` is absent. -/
theorem deduplicate_empty_stats (th : ℚ) (rb : Str) (now : Int) :
    deduplicate [] th rb now =
      .ok ([], [("raw_items".data, 0), ("after_dedup".data, 0),
        ("duplicates_merged".data, 0)]) ∧
    ([(("raw_items".data : Str), (0 : Nat)), ("after_dedup".data, 0),
      ("duplicates_merged".data, 0)].lookup "sources_scanned".data) =
        none :=
  ⟨rfl, rfl⟩

/-- **C9.** `parse_time` is *not* exception-free: the relative-phrase
stage performs unguarded `datetime` arithmetic, and an offset that
leaves the representable range (e.g. "3000 years ago") raises
`OverflowError` through `parse_time` — while an in-range phrase of the
very same shape parses fine, and the unit table (here year = 365 days)
is as specified. -/
theorem parse_time_checked_overflow :
    parse_time_checked (.str "3000 years ago".data) 1760230000 =
      .error () ∧
    parse_time_checked (.str "3 years ago".data) 1760230000 =
      .ok (some (1760230000 - 3 * 31536000)) := by
  decide

set_option maxRecDepth 200000 in
set_option maxHeartbeats 1000000 in
unseal Rat.mul Rat.inv Rat.add Rat.sub in
/-- **C5.** Feeding the `stories` output of one `deduplicate` call back
in does not leave `after_dedup` unchanged — it does not even return: the
re-fed story's `heat` is a dict, the second pass wraps it in another
dict, and `parse_heat` then raises `TypeError` from `re.search`. -/
theorem deduplicate_refeed_raises :
    ((deduplicate [sampleItem] (7/10) "combined".data 0).map
      fun r => (r.1.length, r.2)) =
      .ok (1, [("raw_items".data, 1), ("after_dedup".data, 1),
        ("duplicates_merged".data, 0), ("sources_scanned".data, 1)]) ∧
    (deduplicate [sampleItem] (7/10) "combined".data 0).bind
      (fun r => deduplicate r.1 (7/10) "combined".data 0) = .error () := by
  decide

theorem append_score_inj (rb name : Str)
    (h : rb ++ "_score".data = name ++ "_score".data) : rb = name :=
  (List.append_inj' h rfl).1

/-- **C10.** Any `rank_by` other than `"trending"`, `"signal"` or
`"combined"` — in particular the `"signals"` value promised by the
function's own docstring — does not fail: `deduplicate` silently ranks
by `combined_score`. -/
theorem deduplicate_rank_by_fallback (items : List Item) (th : ℚ) (rb : Str)
    (now : Int)
    (h : ¬ (rb = "trending".data ∨ rb = "signal".data ∨
      rb = "combined".data)) :
    deduplicate items th rb now = deduplicate items th "combined".data now := by
  have hkey : ∀ sc : ℚ × ℚ × ℚ,
      scoresGet sc (rb ++ "_score".data) =
        scoresGet sc ("combined".data ++ "_score".data) := by
    intro sc
    unfold scoresGet
    have e1 : ("trending_score".data : Str) = "trending".data ++ "_score".data := by decide
    have e2 : ("signal_score".data : Str) = "signal".data ++ "_score".data := by decide
    have e3 : ("combined_score".data : Str) = "combined".data ++ "_score".data := by decide
    rw [if_neg fun hh =>
        h (Or.inl (append_score_inj rb "trending".data (e1 ▸ hh))),
      if_neg fun hh =>
        h (Or.inr (Or.inl (append_score_inj rb "signal".data (e2 ▸ hh)))),
      if_neg fun hh =>
        h (Or.inr (Or.inr (append_score_inj rb "combined".data (e3 ▸ hh)))),
      ← e3, if_neg (by decide), if_neg (by decide), if_pos rfl]
  unfold deduplicate
  by_cases hi : items = []
  · rw [if_pos hi, if_pos hi]
  · rw [if_neg hi, if_neg hi]
    simp only [hkey]

/-- Closed instance of the C10 theorem at `rank_by="signals"`. -/
theorem deduplicate_rank_by_fallback_witness :
    deduplicate [sampleItem, { title := some "Other".data }] (7/10)
        "signals".data 0 =
      deduplicate [sampleItem, { title := some "Other".data }] (7/10)
        "combined".data 0 :=
  deduplicate_rank_by_fallback _ (7/10) _ 0 (by decide)

set_option maxRecDepth 100000 in
unseal Rat.mul Rat.inv Rat.add Rat.sub in
/-- **C7** (counterexample): the classifier is not symmetric.
`difflib`'s ratio is order-sensitive — here 10/28 against 20/28 — so the
pair lands in different similarity tiers depending on argument order
(`NONE` one way, `LOW` the other). -/
theorem classify_duplicate_asymmetric :
    classify_duplicate { title := some "abcdexfghijyabcde".data }
        { title := some "fghijzabcde".data } 0 ≠
      classify_duplicate { title := some "fghijzabcde".data }
        { title := some "abcdexfghijyabcde".data } 0 := by
  decide

/-- **C7** (amended): the classifier is symmetric at the HIGH tier (the
URL and fingerprint checks are order-independent), and it is symmetric
on any pair whose title-similarity score is itself order-independent;
full symmetry fails only through the order-sensitivity of the
similarity ratio. -/
theorem classify_duplicate_symmetry (a b : Item) (now : Int) :
    (classify_duplicate a b now = .HIGH ↔
      classify_duplicate b a now = .HIGH) ∧
    (title_similarity a.titleD b.titleD = title_similarity b.titleD a.titleD →
      classify_duplicate a b now = classify_duplicate b a now) := by
  have hu : (canonicalize_url a.url ≠ [] ∧ canonicalize_url b.url ≠ [] ∧
      canonicalize_url a.url = canonicalize_url b.url) ↔
      (canonicalize_url b.url ≠ [] ∧ canonicalize_url a.url ≠ [] ∧
      canonicalize_url b.url = canonicalize_url a.url) :=
    ⟨fun ⟨x, y, z⟩ => ⟨y, x, z.symm⟩, fun ⟨x, y, z⟩ => ⟨y, x, z.symm⟩⟩
  have hc : (a.content ≠ [] ∧ b.content ≠ [] ∧
      content_hash a.content = content_hash b.content) ↔
      (b.content ≠ [] ∧ a.content ≠ [] ∧
      content_hash b.content = content_hash a.content) :=
    ⟨fun ⟨x, y, z⟩ => ⟨y, x, z.symm⟩, fun ⟨x, y, z⟩ => ⟨y, x, z.symm⟩⟩
  rw [classify_eq_spec_aux, classify_eq_spec_aux]
  constructor
  · unfold classify_spec
    by_cases h1 : canonicalize_url a.url ≠ [] ∧ canonicalize_url b.url ≠ [] ∧
        canonicalize_url a.url = canonicalize_url b.url
    · rw [if_pos h1, if_pos (hu.mp h1)]
    · rw [if_neg h1, if_neg (fun hx => h1 (hu.mpr hx))]
      by_cases h2 : a.content ≠ [] ∧ b.content ≠ [] ∧
          content_hash a.content = content_hash b.content
      · rw [if_pos h2, if_pos (hc.mp h2)]
      · rw [if_neg h2, if_neg (fun hx => h2 (hc.mpr hx))]
        constructor <;> intro hx <;> exact absurd hx (by split_ifs <;> simp)
  · intro hsim
    unfold classify_spec
    rw [hsim]
    by_cases h1 : canonicalize_url a.url ≠ [] ∧ canonicalize_url b.url ≠ [] ∧
        canonicalize_url a.url = canonicalize_url b.url
    · rw [if_pos h1, if_pos (hu.mp h1)]
    · rw [if_neg h1, if_neg (fun hx => h1 (hu.mpr hx))]
      by_cases h2 : a.content ≠ [] ∧ b.content ≠ [] ∧
          content_hash a.content = content_hash b.content
      · rw [if_pos h2, if_pos (hc.mp h2)]
      · rw [if_neg h2, if_neg (fun hx => h2 (hc.mpr hx))]

set_option maxRecDepth 100000 in
unseal Rat.mul Rat.inv Rat.add Rat.sub in
/-- Closed instance of the C7 amended theorem on a pair with an
order-independent similarity score. -/
theorem classify_duplicate_symmetry_witness :
    classify_duplicate { title := some "alpha beta".data }
        { title := some "alpha betz".data } 0 =
      classify_duplicate { title := some "alpha betz".data }
        { title := some "alpha beta".data } 0 :=
  (classify_duplicate_symmetry _ _ 0).2 (by decide)

/-- The running minimum of `pyMinParsed` is a member of `acc :: xs` and a
lower bound of it. -/
theorem foldlMin_spec (xs : List (Str × Str × Int)) :
    ∀ acc : Str × Str × Int,
      (xs.foldl (fun best y => if y.2.2 < best.2.2 then y else best) acc
        ∈ acc :: xs) ∧
      (xs.foldl (fun best y => if y.2.2 < best.2.2 then y else best)
        acc).2.2 ≤ acc.2.2 ∧
      ∀ x ∈ xs,
        (xs.foldl (fun best y => if y.2.2 < best.2.2 then y else best)
          acc).2.2 ≤ x.2.2 := by
  induction xs with
  | nil => intro acc; simp
  | cons y ys ih =>
    intro acc
    simp only [List.foldl_cons]
    by_cases h : y.2.2 < acc.2.2
    · rw [if_pos h]
      obtain ⟨hmem, hle, hall⟩ := ih y
      refine ⟨?_, le_trans hle (le_of_lt h), ?_⟩
      · rcases List.mem_cons.mp hmem with h1 | h1
        · exact List.mem_cons.mpr (Or.inr (List.mem_cons.mpr (Or.inl h1)))
        · exact List.mem_cons.mpr (Or.inr (List.mem_cons.mpr (Or.inr h1)))
      · intro x hx
        rcases List.mem_cons.mp hx with rfl | h1
        · exact hle
        · exact hall x h1
    · rw [if_neg h]
      obtain ⟨hmem, hle, hall⟩ := ih acc
      refine ⟨?_, hle, ?_⟩
      · rcases List.mem_cons.mp hmem with h1 | h1
        · exact List.mem_cons.mpr (Or.inl h1)
        · exact List.mem_cons.mpr (Or.inr (List.mem_cons.mpr (Or.inr h1)))
      · intro x hx
        rcases List.mem_cons.mp hx with rfl | h1
        · exact le_trans hle (not_lt.mp h)
        · exact hall x h1

theorem pyMinParsed_spec (l : List (Str × Str × Int)) (h : l ≠ []) :
    ∃ e, pyMinParsed l = some e ∧ e ∈ l ∧ ∀ x ∈ l, e.2.2 ≤ x.2.2 := by
  match l, h with
  | x :: xs, _ =>
    obtain ⟨hmem, hle, hall⟩ := foldlMin_spec xs x
    refine ⟨_, rfl, hmem, ?_⟩
    intro z hz
    rcases List.mem_cons.mp hz with rfl | h1
    · exact hle
    · exact hall z h1

/-- On the collapsed (error-free) model of `merge_items`: for a group of
two or more items, the merged `time` and `time_iso` come from a member
whose `time` field parses to the smallest instant among all parseable
members; when no member's time parses, both fields fall back to the
first member's raw fields.  `merge_items_checked_ok` transfers this to
the faithful fallible model on every group where no time overflows and
the `['title']` subscript succeeds. -/
theorem merge_items_earliest_time (items : List Item) (now : Int)
    (h2 : 2 ≤ items.length) :
    ((∀ it ∈ items, parse_time (.str it.time) now = none) →
      (merge_items items now).time = (items.headD {}).time ∧
      (merge_items items now).time_iso = (items.headD {}).time_iso) ∧
    (∀ it0 ∈ items, ∀ d0 : Int, parse_time (.str it0.time) now = some d0 →
      ∃ it ∈ items, ∃ d : Int, parse_time (.str it.time) now = some d ∧
        (∀ it2 ∈ items, ∀ d2 : Int,
          parse_time (.str it2.time) now = some d2 → d ≤ d2) ∧
        (merge_items items now).time = it.time ∧
        (merge_items items now).time_iso = it.time_iso) := by
  obtain ⟨x, y, r, rfl⟩ : ∃ x y r, items = x :: y :: r := by
    match items, h2 with
    | x :: y :: r, _ => exact ⟨x, y, r, rfl⟩
  constructor
  · intro hnone
    have hnil : (x :: y :: r).filterMap (fun it =>
        (parse_time (.str it.time) now).map
          fun p => (it.time, it.time_iso, p)) = [] := by
      rw [List.filterMap_eq_nil_iff]
      intro it hit
      rw [hnone it hit]
      rfl
    simp only [merge_items, hnil]
    exact ⟨rfl, rfl⟩
  · intro it0 h0 d0 hd0
    have hmem : (it0.time, it0.time_iso, d0) ∈
        (x :: y :: r).filterMap (fun it =>
          (parse_time (.str it.time) now).map
            fun p => (it.time, it.time_iso, p)) :=
      List.mem_filterMap.mpr ⟨it0, h0, by rw [hd0]; rfl⟩
    have hne : (x :: y :: r).filterMap (fun it =>
        (parse_time (.str it.time) now).map
          fun p => (it.time, it.time_iso, p)) ≠ [] := by
      intro hnil
      rw [hnil] at hmem
      exact absurd hmem (List.not_mem_nil _)
    obtain ⟨e, he, hmem', hmin⟩ := pyMinParsed_spec _ hne
    obtain ⟨it, hit, hfit⟩ := List.mem_filterMap.mp hmem'
    cases hp : parse_time (.str it.time) now with
    | none => rw [hp] at hfit; exact absurd hfit (by simp)
    | some d =>
      rw [hp] at hfit
      simp only [Option.map_some', Option.some.injEq] at hfit
      refine ⟨it, hit, d, hp, ?_, ?_, ?_⟩
      · intro it2 h2' d2 hd2
        have hm2 : (it2.time, it2.time_iso, d2) ∈
            (x :: y :: r).filterMap (fun it =>
              (parse_time (.str it.time) now).map
                fun p => (it.time, it.time_iso, p)) :=
          List.mem_filterMap.mpr ⟨it2, h2', by rw [hd2]; rfl⟩
        have := hmin _ hm2
        rw [← hfit] at this
        exact this
      · simp only [merge_items, he]
        rw [← hfit]
      · simp only [merge_items, he]
        rw [← hfit]

/-- Closed instance of `merge_items_earliest_time`: of two items
timestamped `Jan 25, 2026` and `Jan 20, 2026`, the merged record carries
the latter's fields. -/
theorem merge_items_earliest_time_witness :
    ∃ it ∈ ([itemJan25, itemJan20] : List Item), ∃ d : Int,
      parse_time (.str it.time) 0 = some d ∧
      (∀ it2 ∈ ([itemJan25, itemJan20] : List Item), ∀ d2 : Int,
        parse_time (.str it2.time) 0 = some d2 → d ≤ d2) ∧
      (merge_items [itemJan25, itemJan20] 0).time = it.time ∧
      (merge_items [itemJan25, itemJan20] 0).time_iso = it.time_iso :=
  (merge_items_earliest_time [itemJan25, itemJan20] 0 (by decide)).2
    itemJan25 (by simp) 1769299200 (by decide)

theorem kVal_le_succ_left (s : Str) (n : Nat) :
    ∀ i j, kVal s n i j ≤ i + 1
  | 0, _ => le_refl _
  | _ + 1, 0 => by simp [kVal]
  | i + 1, j + 1 => by
    simp only [kVal]
    by_cases hc : j < n ∧ s.getD j ' ' = s.getD i ' ' ∧
        ¬ popularB s (s.getD i ' ')
    · rw [if_pos hc]
      exact Nat.succ_le_succ (kVal_le_succ_left s n i j)
    · rw [if_neg hc]
      omega

theorem kVal_pos (s : Str) (n : Nat) : ∀ i j, 1 ≤ kVal s n i j
  | 0, _ => le_refl _
  | _ + 1, 0 => le_refl _
  | _ + 1, _ + 1 => Nat.le_add_left 1 _

/-- Any off-diagonal chain value below the diagonal is dominated by the
earlier diagonal's chain value. -/
theorem kVal_le_diag_lt (s : Str) (n : Nat) :
    ∀ i j, j ≤ i → kVal s n i j ≤ kVal s n j j
  | 0, 0, _ => le_refl _
  | i + 1, 0, _ => by simp [kVal]
  | 0, j + 1, h => absurd h (by omega)
  | i + 1, j + 1, h => by
    have lhs : kVal s n (i + 1) (j + 1) =
        (if j < n ∧ s.getD j ' ' = s.getD i ' ' ∧
          ¬ popularB s (s.getD i ' ') then kVal s n i j else 0) + 1 := rfl
    have rhs : kVal s n (j + 1) (j + 1) =
        (if j < n ∧ s.getD j ' ' = s.getD j ' ' ∧
          ¬ popularB s (s.getD j ' ') then kVal s n j j else 0) + 1 := rfl
    rw [lhs, rhs]
    by_cases hc : j < n ∧ s.getD j ' ' = s.getD i ' ' ∧
        ¬ popularB s (s.getD i ' ')
    · have hc' : j < n ∧ s.getD j ' ' = s.getD j ' ' ∧
          ¬ popularB s (s.getD j ' ') := by
        refine ⟨hc.1, rfl, ?_⟩
        rw [hc.2.1]
        exact hc.2.2
      rw [if_pos hc, if_pos hc']
      exact Nat.succ_le_succ (kVal_le_diag_lt s n i j (by omega))
    · rw [if_neg hc]
      have := kVal_pos s n j j
      omega

/-- Any off-diagonal chain value above the diagonal is dominated by the
current row's diagonal chain value. -/
theorem kVal_le_diag_gt (s : Str) (n : Nat) :
    ∀ i j, i ≤ j → kVal s n i j ≤ kVal s n i i
  | 0, _, _ => le_refl _
  | i + 1, 0, h => absurd h (by omega)
  | i + 1, j + 1, h => by
    have lhs : kVal s n (i + 1) (j + 1) =
        (if j < n ∧ s.getD j ' ' = s.getD i ' ' ∧
          ¬ popularB s (s.getD i ' ') then kVal s n i j else 0) + 1 := rfl
    have rhs : kVal s n (i + 1) (i + 1) =
        (if i < n ∧ s.getD i ' ' = s.getD i ' ' ∧
          ¬ popularB s (s.getD i ' ') then kVal s n i i else 0) + 1 := rfl
    rw [lhs, rhs]
    by_cases hc : j < n ∧ s.getD j ' ' = s.getD i ' ' ∧
        ¬ popularB s (s.getD i ' ')
    · have hc' : i < n ∧ s.getD i ' ' = s.getD i ' ' ∧
          ¬ popularB s (s.getD i ' ') :=
        ⟨by omega, rfl, hc.2.2⟩
      rw [if_pos hc, if_pos hc']
      exact Nat.succ_le_succ (kVal_le_diag_gt s n i j (by omega))
    · rw [if_neg hc]
      have := kVal_pos s n i i
      omega

/-- Membership in the (possibly autojunk-emptied) `b2j` list. -/
theorem b2j_mem (b : Str) (c : Char) (j : Nat) :
    j ∈ b2j b c ↔ ¬ popularB b c ∧ j < b.length ∧ b.getD j ' ' = c := by
  unfold b2j b2jAll
  by_cases hp : popularB b c
  · simp [hp]
  · simp [hp, List.mem_filter, List.mem_range]

theorem b2j_sorted (b : Str) (c : Char) : (b2j b c).Pairwise (· < ·) := by
  unfold b2j b2jAll
  by_cases hp : popularB b c
  · simp [hp]
  · rw [if_neg hp]
    exact List.Pairwise.filter _ (List.pairwise_lt_range _)

theorem kStep_eq (s : Str) (n i j : Nat) (j2old : Nat → Nat)
    (hj2 : ∀ x, j2old x = if i = 0 then 0 else rowFun s n (i - 1) x) :
    (if j = 0 then 0 else j2old (j - 1)) + 1 = kVal s n i j := by
  match i, j with
  | 0, 0 => simp [kVal]
  | 0, j + 1 => simp [kVal, hj2]
  | i + 1, 0 => simp [kVal]
  | i + 1, j + 1 =>
    have hk : kVal s n (i + 1) (j + 1) =
        (if j < n ∧ s.getD j ' ' = s.getD i ' ' ∧
          ¬ popularB s (s.getD i ' ') then kVal s n i j else 0) + 1 := rfl
    rw [hk]
    simp [hj2, rowFun]

theorem rowFun_eq_b2j (s : Str) (n : Nat) (hn : n = s.length) (i x : Nat) :
    (if x ∈ b2j s (s.getD i ' ') then kVal s n i x else 0) = rowFun s n i x := by
  unfold rowFun
  by_cases hx : x ∈ b2j s (s.getD i ' ')
  · obtain ⟨h1, h2, h3⟩ := (b2j_mem _ _ _).1 hx
    rw [if_pos hx, if_pos ⟨by omega, h3, h1⟩]
  · rw [if_neg hx, if_neg]
    rintro ⟨h1, h2, h3⟩
    exact hx ((b2j_mem _ _ _).2 ⟨h3, by omega, h2⟩)

theorem flmInner_cons_step (bhi i : Nat) (j2old : Nat → Nat) (j : Nat)
    (rest : List Nat) (j2new : Nat → Nat) (st : FlmState) (hj : j < bhi) :
    flmInner 0 bhi i j2old (j :: rest) j2new st =
      flmInner 0 bhi i j2old rest
        (fun x => if x = j then (if j = 0 then 0 else j2old (j - 1)) + 1
          else j2new x)
        (if (if j = 0 then 0 else j2old (j - 1)) + 1 > st.bestk then
          ⟨i + 1 - ((if j = 0 then 0 else j2old (j - 1)) + 1),
           j + 1 - ((if j = 0 then 0 else j2old (j - 1)) + 1),
           (if j = 0 then 0 else j2old (j - 1)) + 1⟩
         else st) := by
  simp only [flmInner]
  rw [if_neg (by omega : ¬ j < 0), if_neg (by omega : ¬ bhi ≤ j)]

theorem flmInner_self (s : Str) (n i : Nat) (j2old : Nat → Nat)
    (hn : n = s.length) (hi : i < n)
    (hj2 : ∀ x, j2old x = if i = 0 then 0 else rowFun s n (i - 1) x) :
    ∀ (rl : List Nat) (j2new : Nat → Nat) (st : FlmState),
    (∀ x ∈ rl, x ∈ b2j s (s.getD i ' ')) →
    rl.Pairwise (· < ·) →
    (∀ x, j2new x = if x ∈ b2j s (s.getD i ' ') ∧ x ∉ rl then
        kVal s n i x else 0) →
    st.besti = st.bestj → st.besti + st.bestk ≤ n →
    (∀ j, j < i → popularB s (s.getD j ' ') = false →
        kVal s n j j ≤ st.bestk) →
    (kVal s n i i ≤ st.bestk ∨ i ∈ rl) →
    (∀ x, (flmInner 0 n i j2old rl j2new st).1 x
        = if x ∈ b2j s (s.getD i ' ') then kVal s n i x else 0) ∧
    (flmInner 0 n i j2old rl j2new st).2.besti
        = (flmInner 0 n i j2old rl j2new st).2.bestj ∧
    (flmInner 0 n i j2old rl j2new st).2.besti
        + (flmInner 0 n i j2old rl j2new st).2.bestk ≤ n ∧
    st.bestk ≤ (flmInner 0 n i j2old rl j2new st).2.bestk ∧
    (∀ j, j < i → popularB s (s.getD j ' ') = false →
        kVal s n j j ≤ (flmInner 0 n i j2old rl j2new st).2.bestk) ∧
    kVal s n i i ≤ (flmInner 0 n i j2old rl j2new st).2.bestk := by
  intro rl
  induction rl with
  | nil =>
    intro j2new st hmem hpw hch h1 h2 hdom hdiag
    refine ⟨?_, h1, h2, le_refl _, hdom, ?_⟩
    · intro x
      have := hch x
      simpa using this
    · rcases hdiag with h | h
      · exact h
      · simp at h
  | cons j rest ih =>
    intro j2new st hmem hpw hch h1 h2 hdom hdiag
    have hjb : j ∈ b2j s (s.getD i ' ') := hmem j (by simp)
    obtain ⟨hpop, hjlen, hjeq⟩ := (b2j_mem _ _ _).1 hjb
    have hjn : j < n := by omega
    have hjrest : j ∉ rest := by
      intro hmem2
      have := (List.pairwise_cons.1 hpw).1 j hmem2
      omega
    rw [flmInner_cons_step n i j2old j rest j2new st hjn,
        kStep_eq s n i j j2old hj2]
    -- characterization of the updated row table
    have hch' : ∀ x, (fun x => if x = j then kVal s n i j else j2new x) x =
        if x ∈ b2j s (s.getD i ' ') ∧ x ∉ rest then kVal s n i x else 0 := by
      intro x
      show (if x = j then kVal s n i j else j2new x) =
        if x ∈ b2j s (s.getD i ' ') ∧ x ∉ rest then kVal s n i x else 0
      by_cases hx : x = j
      · subst hx
        rw [if_pos rfl, if_pos ⟨hjb, hjrest⟩]
      · rw [if_neg hx, hch x]
        by_cases hb : x ∈ b2j s (s.getD i ' ')
        · have : (x ∉ j :: rest) ↔ (x ∉ rest) := by simp [hx]
          simp only [hb, true_and, this]
        · simp only [hb, false_and, if_neg]
      -- end
    by_cases hji : j = i
    · subst hji
      by_cases hup : kVal s n j j > st.bestk
      · rw [if_pos hup]
        have hk1 : kVal s n j j ≤ j + 1 := kVal_le_succ_left s n j j
        have := ih (fun x => if x = j then kVal s n j j else j2new x)
          ⟨j + 1 - kVal s n j j, j + 1 - kVal s n j j, kVal s n j j⟩
          (fun x hx => hmem x (by simp [hx]))
          (List.pairwise_cons.1 hpw).2 hch' rfl (by simp; omega)
          (by intro j' hj' hp'; have := hdom j' hj' hp'; simp; omega)
          (Or.inl (by simp))
        exact ⟨this.1, this.2.1, this.2.2.1,
          le_trans (le_of_lt hup) (by simpa using this.2.2.2.1),
          this.2.2.2.2.1, this.2.2.2.2.2⟩
      · rw [if_neg hup]
        exact ih (fun x => if x = j then kVal s n j j else j2new x) st
          (fun x hx => hmem x (by simp [hx]))
          (List.pairwise_cons.1 hpw).2 hch' h1 h2 hdom
          (Or.inl (by omega))
    · -- off-diagonal: no update happens
      have hnoup : ¬ kVal s n i j > st.bestk := by
        rcases Nat.lt_or_ge j i with hlt | hge
        · -- j < i: dominated by the earlier diagonal already in bestk
          have hd1 : kVal s n i j ≤ kVal s n j j :=
            kVal_le_diag_lt s n i j (le_of_lt hlt)
          have hpj : popularB s (s.getD j ' ') = false := by
            rw [hjeq]
            simpa using hpop
          have := hdom j hlt hpj
          omega
        · -- i < j: the diagonal of this row was processed before j
          have hilt : i < j := by omega
          have hd1 : kVal s n i j ≤ kVal s n i i :=
            kVal_le_diag_gt s n i j (by omega)
          have hii : kVal s n i i ≤ st.bestk := by
            rcases hdiag with h | h
            · exact h
            · exfalso
              rcases List.mem_cons.1 h with h | h
              · omega
              · have := (List.pairwise_cons.1 hpw).1 i h
                omega
          omega
      rw [if_neg hnoup]
      refine ih (fun x => if x = j then kVal s n i j else j2new x) st
        (fun x hx => hmem x (by simp [hx]))
        (List.pairwise_cons.1 hpw).2 hch' h1 h2 hdom ?_
      rcases hdiag with h | h
      · exact Or.inl h
      · rcases List.mem_cons.1 h with h | h
        · exact absurd h.symm hji
        · exact Or.inr h

theorem flmRows_self (s : Str) (n : Nat) (hn : n = s.length) :
    ∀ (m i0 : Nat) (j2len : Nat → Nat) (st : FlmState),
    i0 + m ≤ n →
    (∀ x, j2len x = if i0 = 0 then 0 else rowFun s n (i0 - 1) x) →
    st.besti = st.bestj →
    st.besti + st.bestk ≤ n →
    (∀ j, j < i0 → popularB s (s.getD j ' ') = false →
        kVal s n j j ≤ st.bestk) →
    (flmRows s s 0 n (List.range' i0 m) j2len st).besti
        = (flmRows s s 0 n (List.range' i0 m) j2len st).bestj ∧
    (flmRows s s 0 n (List.range' i0 m) j2len st).besti
        + (flmRows s s 0 n (List.range' i0 m) j2len st).bestk ≤ n ∧
    (∀ j, j < i0 + m → popularB s (s.getD j ' ') = false →
        kVal s n j j ≤ (flmRows s s 0 n (List.range' i0 m) j2len st).bestk) := by
  intro m
  induction m with
  | zero =>
    intro i0 j2len st hm hj2 h1 h2 hdom
    simp only [List.range'_zero]
    exact ⟨h1, h2, fun j hj hp => hdom j (by omega) hp⟩
  | succ m ih =>
    intro i0 j2len st hm hj2 h1 h2 hdom
    rw [List.range'_succ]
    simp only [flmRows]
    by_cases hpop : popularB s (s.getD i0 ' ') = true
    · -- popular row: empty position list, nothing changes
      have hb : b2j s (s.getD i0 ' ') = [] := by
        unfold b2j
        rw [if_pos hpop]
      rw [hb]
      simp only [flmInner]
      have := ih (i0 + 1) (fun _ => 0) st (by omega)
        (by
          intro x
          rw [if_neg (by omega : ¬ i0 + 1 = 0)]
          unfold rowFun
          simp only [Nat.add_sub_cancel]
          rw [if_neg]
          rintro ⟨hx1, hx2, hx3⟩
          exact hx3 hpop)
        h1 h2
        (by
          intro j hj hp
          rcases Nat.lt_or_ge j i0 with hlt | hge
          · exact hdom j hlt hp
          · exfalso
            have : j = i0 := by omega
            rw [this] at hp
            rw [hp] at hpop
            simp at hpop)
      exact ⟨this.1, this.2.1, fun j hj hp => this.2.2 j (by omega) hp⟩
    · -- regular row: run the inner-loop invariant
      have hpop' : popularB s (s.getD i0 ' ') = false := by
        simpa using hpop
      have hi0 : i0 < n := by omega
      have hinner := flmInner_self s n i0 j2len hn hi0 hj2
        (b2j s (s.getD i0 ' ')) (fun _ => 0) st
        (fun x hx => hx) (b2j_sorted s _)
        (by
          intro x
          rw [if_neg]
          rintro ⟨hx1, hx2⟩
          exact hx2 hx1)
        h1 h2 hdom
        (Or.inr ((b2j_mem _ _ _).2 ⟨by rw [hpop']; simp, by omega, rfl⟩))
      obtain ⟨hf1, hf2, hf3, hf4, hf5, hf6⟩ := hinner
      have := ih (i0 + 1)
        (flmInner 0 n i0 j2len (b2j s (s.getD i0 ' ')) (fun _ => 0) st).1
        (flmInner 0 n i0 j2len (b2j s (s.getD i0 ' ')) (fun _ => 0) st).2
        (by omega)
        (by
          intro x
          rw [if_neg (by omega : ¬ i0 + 1 = 0)]
          simp only [Nat.add_sub_cancel]
          rw [hf1 x]
          exact rowFun_eq_b2j s n hn i0 x)
        hf2 hf3
        (by
          intro j hj hp
          rcases Nat.lt_or_ge j i0 with hlt | hge
          · exact hf5 j hlt hp
          · have : j = i0 := by omega
            rw [this]
            exact hf6)
      exact ⟨this.1, this.2.1, fun j hj hp => this.2.2 j (by omega) hp⟩

theorem extendLo_stuck (a b : Str) (alo blo : Nat) :
    ∀ (fuel : Nat) (st : FlmState), st.besti ≤ alo →
    extendLo a b alo blo fuel st = st
  | 0, st, _ => rfl
  | fuel + 1, st, h => by
    simp only [extendLo]
    rw [if_neg]
    simp only [Bool.and_eq_true, decide_eq_true_eq]
    rintro ⟨⟨hx1, hx2⟩, hx3⟩
    omega

theorem extendLo_self (s : Str) :
    ∀ (fuel : Nat) (st : FlmState), st.besti = st.bestj →
    st.besti + st.bestk ≤ s.length → st.besti ≤ fuel →
    extendLo s s 0 0 fuel st = ⟨0, 0, st.besti + st.bestk⟩
  | 0, st, h1, h2, h3 => by
    obtain ⟨bi, bj, bk⟩ := st
    simp only at h1 h2 h3
    have hbi : bi = 0 := by omega
    subst hbi
    subst h1
    simp [extendLo]
  | fuel + 1, st, h1, h2, h3 => by
    obtain ⟨bi, bj, bk⟩ := st
    simp only at h1 h2 h3 ⊢
    subst h1
    match bi, h3 with
    | 0, _ => simp [extendLo]
    | b + 1, h3 => ?_
    simp only [extendLo]
    rw [if_pos]
    · have hrec : extendLo s s 0 0 fuel ⟨b, b, bk + 1⟩ = ⟨0, 0, b + (bk + 1)⟩ :=
        extendLo_self s fuel ⟨b, b, bk + 1⟩ rfl (by simp only; omega)
          (by simp only; omega)
      simp only [Nat.add_sub_cancel]
      rw [hrec]
      simp only [FlmState.mk.injEq]
      exact ⟨trivial, trivial, by omega⟩
    · simp only [Bool.and_eq_true, decide_eq_true_eq]
      refine ⟨⟨by omega, by omega⟩, ?_⟩
      simp only [Nat.add_sub_cancel]
      rw [List.getD_eq_getElem s '\x00' (by omega), List.getD_eq_getElem s '\x01' (by omega)]

theorem extendHi_self (s : Str) :
    ∀ (fuel : Nat) (st : FlmState), st.besti = 0 → st.bestj = 0 →
    st.bestk ≤ s.length → s.length - st.bestk ≤ fuel →
    extendHi s s s.length s.length fuel st = ⟨0, 0, s.length⟩
  | 0, st, h1, h2, h3, h4 => by
    obtain ⟨bi, bj, bk⟩ := st
    simp only at h1 h2 h3 h4
    subst h1; subst h2
    have : bk = s.length := by omega
    subst this
    rfl
  | fuel + 1, st, h1, h2, h3, h4 => by
    obtain ⟨bi, bj, bk⟩ := st
    simp only at h1 h2 h3 h4 ⊢
    subst h1; subst h2
    rcases Nat.lt_or_ge bk s.length with hlt | hge
    · simp only [extendHi]
      rw [if_pos]
      · exact extendHi_self s fuel ⟨0, 0, bk + 1⟩ rfl rfl (by simp only; omega)
          (by simp only; omega)
      · simp only [Bool.and_eq_true, decide_eq_true_eq, Nat.zero_add]
        refine ⟨⟨hlt, hlt⟩, ?_⟩
        rw [List.getD_eq_getElem s '\x00' hlt, List.getD_eq_getElem s '\x01' hlt]
    · have : bk = s.length := by omega
      subst this
      simp only [extendHi]
      rw [if_neg]
      simp only [Bool.and_eq_true, decide_eq_true_eq, Nat.zero_add]
      rintro ⟨⟨hx1, hx2⟩, hx3⟩
      omega

theorem extendHi_stuck (a b : Str) (ahi bhi : Nat) :
    ∀ (fuel : Nat) (st : FlmState), ahi ≤ st.besti + st.bestk →
    extendHi a b ahi bhi fuel st = st
  | 0, st, _ => rfl
  | fuel + 1, st, h => by
    simp only [extendHi]
    rw [if_neg]
    simp only [Bool.and_eq_true, decide_eq_true_eq]
    rintro ⟨⟨hx1, hx2⟩, hx3⟩
    omega

theorem find_longest_match_empty (a b : Str) (x y : Nat) :
    find_longest_match a b x x y y = ⟨x, y, 0⟩ := by
  unfold find_longest_match
  simp only [Nat.sub_self, List.range'_zero]
  have h1 : flmRows a b y y ([] : List Nat) (fun _ => 0) ⟨x, y, 0⟩
      = ⟨x, y, 0⟩ := rfl
  rw [h1]
  rw [extendLo_stuck a b x y _ ⟨x, y, 0⟩ (le_refl x)]
  exact extendHi_stuck a b x y _ ⟨x, y, 0⟩ (by simp only; omega)

theorem find_longest_match_self (s : Str) (n : Nat) (hn : n = s.length) :
    find_longest_match s s 0 n 0 n = ⟨0, 0, n⟩ := by
  unfold find_longest_match
  simp only [Nat.sub_zero]
  obtain ⟨h1, h2, _⟩ := flmRows_self s n hn n 0 (fun _ => 0) ⟨0, 0, 0⟩
    (by omega) (fun x => by simp) rfl (by simp) (fun j hj hp => by omega)
  set st1 := flmRows s s 0 n (List.range' 0 n) (fun _ => 0) ⟨0, 0, 0⟩ with hst1
  have hlo : extendLo s s 0 0 st1.besti st1 = ⟨0, 0, st1.besti + st1.bestk⟩ :=
    extendLo_self s st1.besti st1 h1 (by omega) (le_refl _)
  rw [hlo]
  have hk : st1.besti + st1.bestk ≤ s.length := by omega
  have hfin := extendHi_self s (n - (0 + (st1.besti + st1.bestk)))
    ⟨0, 0, st1.besti + st1.bestk⟩ rfl rfl hk (by simp only; omega)
  rw [hn]
  rw [hn] at hfin
  exact hfin

theorem matchSum_empty (a b : Str) : ∀ (fuel x y : Nat),
    matchSum a b fuel x x y y = 0
  | 0, _, _ => rfl
  | fuel + 1, x, y => by
    simp only [matchSum, find_longest_match_empty]
    simp

theorem matchSum_self (s : Str) (n fuel : Nat) (hn : n = s.length) :
    matchSum s s (fuel + 1) 0 n 0 n = n := by
  by_cases h0 : n = 0
  · subst h0
    simpa using matchSum_empty s s (fuel + 1) 0 0
  · simp only [matchSum, find_longest_match_self s n hn]
    rw [if_neg h0]
    simp only [Nat.zero_add]
    rw [matchSum_empty, matchSum_empty]
    omega

theorem ratioQ_self (s : Str) (h : s ≠ []) : ratioQ s s = 1 := by
  have hlen : s.length ≠ 0 := by simpa using h
  unfold ratioQ
  simp only []
  rw [if_neg (by omega : ¬ (s.length + s.length = 0))]
  rw [matchSum_self s s.length (s.length + s.length) rfl]
  have hne : ((s.length + s.length : Nat) : ℚ) ≠ 0 := by
    exact_mod_cast (by omega : (s.length + s.length : Nat) ≠ 0)
  rw [div_eq_iff hne]
  push_cast
  ring

theorem title_similarity_self_ne_nil (t : Str) (h : normalize_title t ≠ []) :
    title_similarity t t = 1 := by
  unfold title_similarity
  simp only []
  rw [if_neg (by simp [h])]
  exact ratioQ_self _ h

/-- C6 counterexample: the all-punctuation title "!!!" is a non-empty
string, yet `title_similarity "!!!" "!!!"` is `0`, not `1`: normalization
maps every character to a space and strips it, and the guard returns `0`
whenever a normalized side is empty. -/
theorem title_similarity_self_punct_zero :
    "!!!".data ≠ ([] : Str) ∧ title_similarity "!!!".data "!!!".data = 0 := by
  constructor
  · decide
  · decide

/-- C6 (amended): `title_similarity t t = 1` holds exactly when the
normalized title is non-empty (for every title whose normal form keeps at
least one character, self-similarity is `1`, whatever the original case
and punctuation); and `title_similarity "" x = 0` for every `x`. -/
theorem title_similarity_self_amended (t x : Str) :
    (normalize_title t ≠ [] → title_similarity t t = 1) ∧
    title_similarity [] x = 0 := by
  refine ⟨title_similarity_self_ne_nil t, ?_⟩
  have h : normalize_title ([] : Str) = [] := rfl
  unfold title_similarity
  simp only [h]
  rw [if_pos]
  simp

/-- Closed witness for C6 (amended) at the title "Hello, World!" (and
second argument "x"): the hypothesis is discharged by evaluation. -/
theorem title_similarity_self_amended_witness :
    normalize_title "Hello, World!".data ≠ [] ∧
    title_similarity "Hello, World!".data "Hello, World!".data = 1 ∧
    title_similarity [] "x".data = 0 :=
  ⟨by decide,
   (title_similarity_self_amended "Hello, World!".data "x".data).1 (by decide),
   (title_similarity_self_amended "Hello, World!".data "x".data).2⟩

theorem findIdx_none (p : Char → Bool) :
    ∀ (l : List Char) (i : Nat), (∀ a ∈ l, p a = false) →
    List.findIdx? p l i = none
  | [], _, _ => rfl
  | a :: l, i, h => by
    have ha : p a = false := h a (List.mem_cons_self a l)
    simp only [List.findIdx?, ha, Bool.false_eq_true, if_false]
    exact findIdx_none p l (i + 1) (fun x hx => h x (List.mem_cons_of_mem a hx))

theorem findIdx_append_first (p : Char → Bool) (b : Char) (hb : p b = true) :
    ∀ (l1 l2 : List Char) (i : Nat), (∀ a ∈ l1, p a = false) →
    List.findIdx? p (l1 ++ b :: l2) i = some (i + l1.length)
  | [], l2, i, _ => by simp [List.findIdx?, hb]
  | a :: l1, l2, i, h => by
    have ha : p a = false := h a (List.mem_cons_self a l1)
    simp only [List.cons_append, List.findIdx?, ha, Bool.false_eq_true, if_false,
      List.append_eq]
    rw [findIdx_append_first p b hb l1 l2 (i + 1)
      (fun x hx => h x (List.mem_cons_of_mem a hx))]
    congr 1
    simp only [List.length_cons]
    omega

theorem drop_left_succ (l1 l2 : List Char) (b : Char) :
    (l1 ++ b :: l2).drop (l1.length + 1) = l2 := by
  have h : l1 ++ b :: l2 = (l1 ++ [b]) ++ l2 := by simp
  have hl : (l1 ++ [b]).length = l1.length + 1 := by simp
  rw [h, ← hl, List.drop_left]

theorem splitFirst_none (c : Char) (l : Str) (h : c ∉ l) :
    splitFirst c l = (l, none) := by
  unfold splitFirst
  rw [findIdx_none _ l 0 (fun a ha => by
    simp only [decide_eq_false_iff_not]
    intro he
    exact h (he ▸ ha))]

theorem splitFirst_app (c : Char) (l1 l2 : Str) (h : c ∉ l1) :
    splitFirst c (l1 ++ c :: l2) = (l1, some l2) := by
  unfold splitFirst
  rw [findIdx_append_first _ c (by simp) l1 l2 0 (fun a ha => by
    simp only [decide_eq_false_iff_not]
    intro he
    exact h (he ▸ ha))]
  simp only [Nat.zero_add]
  rw [List.take_left, drop_left_succ]

theorem splitScheme_canonical (scheme rest : Str)
    (h1 : scheme ≠ []) (h2 : scheme.all isSchemeChar = true)
    (h3 : (scheme.getD 0 ' ').isAlpha = true) (h4 : lowerStr scheme = scheme) :
    splitScheme (scheme ++ ':' :: rest) = (scheme, rest) := by
  unfold splitScheme
  rw [findIdx_append_first _ ':' (by simp) scheme rest 0 (fun a ha => by
    simp only [decide_eq_false_iff_not]
    intro he
    have h5 := List.all_eq_true.1 h2 a ha
    rw [he] at h5
    exact absurd h5 (by decide))]
  simp only [Nat.zero_add]
  rw [if_pos]
  · rw [List.take_left, drop_left_succ, h4]
  · simp only [Bool.and_eq_true, decide_eq_true_eq]
    refine ⟨⟨?_, ?_⟩, ?_⟩
    · cases scheme with
      | nil => exact absurd rfl h1
      | cons a t => simp
    · rw [List.take_left]
      exact h2
    · cases scheme with
      | nil => exact absurd rfl h1
      | cons a t => simpa using h3

theorem takeWhile_stop (p : Char → Bool) (l1 l2 : List Char)
    (h1 : ∀ a ∈ l1, p a = true)
    (h2 : l2 = [] ∨ ∃ b t, l2 = b :: t ∧ p b = false) :
    (l1 ++ l2).takeWhile p = l1 ∧ (l1 ++ l2).dropWhile p = l2 := by
  rw [List.takeWhile_append_of_pos h1, List.dropWhile_append_of_pos h1]
  rcases h2 with h2 | ⟨b, t, rfl, hb⟩
  · subst h2
    simp
  · simp [List.takeWhile_cons, List.dropWhile_cons, hb]

theorem unparse_shape (scheme netloc path query : Str)
    (hs : scheme ≠ []) (hn : netloc ≠ [])
    (hp : path = [] ∨ path.getD 0 ' ' = '/') :
    urlunparse scheme netloc path [] query [] =
      scheme ++ ':' :: ('/' :: '/' :: (netloc ++ (path ++
        (if query = [] then [] else '?' :: query)))) := by
  unfold urlunparse urlunsplit
  simp only [ne_eq, not_true_eq_false, if_false, reduceIte]
  rw [if_pos (Or.inl hn)]
  have hpath : (if path ≠ [] ∧ path.getD 0 ' ' ≠ '/' then '/' :: path else path)
      = path := by
    rcases hp with hp | hp
    · subst hp
      simp
    · rw [if_neg]
      rintro ⟨h1, h2⟩
      exact h2 hp
  rw [hpath, if_pos hs]
  by_cases hq : query = []
  · subst hq
    simp
  · rw [if_pos hq, if_neg hq]
    simp

theorem urlsplit_unparse (scheme netloc path query : Str)
    (hs : goodScheme scheme = true) (hn : goodNetloc netloc = true)
    (hp : goodPath path = true) (hq : goodQuery query = true) :
    urlsplit (urlunparse scheme netloc path [] query []) =
      some ⟨scheme, netloc, path, query, []⟩ := by
  simp only [goodScheme, Bool.and_eq_true, decide_eq_true_eq, ne_eq] at hs
  obtain ⟨⟨⟨hs1, hs2⟩, hs3⟩, hs4⟩ := hs
  simp only [goodNetloc, Bool.and_eq_true, decide_eq_true_eq, ne_eq,
    List.all_eq_true, Bool.not_eq_true', Bool.or_eq_false_iff,
    decide_eq_false_iff_not] at hn
  obtain ⟨hn1, hn2⟩ := hn
  simp only [goodPath, Bool.and_eq_true, decide_eq_true_eq, ne_eq,
    List.all_eq_true, Bool.not_eq_true', Bool.or_eq_false_iff,
    decide_eq_false_iff_not, Bool.or_eq_true] at hp
  obtain ⟨hp1, hp2⟩ := hp
  simp only [goodQuery, List.all_eq_true, Bool.not_eq_true',
    Bool.or_eq_false_iff, decide_eq_false_iff_not] at hq
  have hp1' : path = [] ∨ path.getD 0 ' ' = '/' := by
    rcases hp1 with h | h
    · exact Or.inl (by simpa using h)
    · exact Or.inr (by simpa using h)
  rw [unparse_shape scheme netloc path query hs1 hn1 hp1']
  set qpart : Str := if query = [] then [] else '?' :: query with hqpart
  unfold urlsplit
  -- the tab/cr/lf filter is the identity on the reassembled URL
  have hfil : (scheme ++ ':' :: ('/' :: '/' :: (netloc ++ (path ++ qpart)))).filter
      (fun c => !(c = '\t' || c = '\r' || c = '\n')) =
      scheme ++ ':' :: ('/' :: '/' :: (netloc ++ (path ++ qpart))) := by
    refine List.filter_eq_self.2 ?_
    intro a ha
    simp only [Bool.not_eq_true', Bool.or_eq_false_iff, decide_eq_false_iff_not]
    simp only [List.mem_append, List.mem_cons] at ha
    rcases ha with ha | ha | ha | ha | ha | ha | ha
    · have h5 := List.all_eq_true.1 hs2 a ha
      refine ⟨⟨?_, ?_⟩, ?_⟩ <;> intro he <;> rw [he] at h5 <;>
        exact absurd h5 (by decide)
    · subst ha
      refine ⟨⟨?_, ?_⟩, ?_⟩ <;> decide
    · subst ha
      refine ⟨⟨?_, ?_⟩, ?_⟩ <;> decide
    · subst ha
      refine ⟨⟨?_, ?_⟩, ?_⟩ <;> decide
    · obtain ⟨⟨⟨⟨⟨⟨⟨hA, hB⟩, hC⟩, hD⟩, hE⟩, hF⟩, hG⟩, hH⟩ := hn2 a ha
      exact ⟨⟨hF, hG⟩, hH⟩
    · obtain ⟨⟨⟨⟨⟨hA, hB⟩, hC⟩, hD⟩, hE⟩, hF⟩ := hp2 a ha
      exact ⟨⟨hD, hE⟩, hF⟩
    · rw [hqpart] at ha
      by_cases h0 : query = []
      · rw [if_pos h0] at ha
        simp at ha
      · rw [if_neg h0] at ha
        rcases List.mem_cons.1 ha with hd | hd
        · subst hd
          refine ⟨⟨?_, ?_⟩, ?_⟩ <;> decide
        · obtain ⟨⟨⟨hA, hB⟩, hC⟩, hD⟩ := hq a hd
          exact ⟨⟨hB, hC⟩, hD⟩
  simp only [hfil]
  rw [splitScheme_canonical scheme _ hs1 hs2 hs3 hs4]
  simp only []
  have hpre : "//".data.isPrefixOf
      ('/' :: '/' :: (netloc ++ (path ++ qpart))) = true := by
    simp [List.isPrefixOf]
  rw [if_pos hpre]
  simp only [List.drop_succ_cons, List.drop_zero]
  have hstop : (netloc ++ (path ++ qpart)).takeWhile
        (fun c => !isNetlocEnd c) = netloc ∧
      (netloc ++ (path ++ qpart)).dropWhile
        (fun c => !isNetlocEnd c) = path ++ qpart := by
    refine takeWhile_stop _ netloc (path ++ qpart) ?_ ?_
    · intro a ha
      obtain ⟨⟨⟨⟨⟨⟨⟨hA, hB⟩, hC⟩, hD⟩, hE⟩, hF⟩, hG⟩, hH⟩ := hn2 a ha
      simp only [Bool.not_eq_true', isNetlocEnd, Bool.or_eq_false_iff,
        decide_eq_false_iff_not]
      exact ⟨⟨hA, hB⟩, hC⟩
    · rcases hp1' with h0 | h0
      · subst h0
        simp only [List.nil_append]
        rw [hqpart]
        by_cases h1 : query = []
        · rw [if_pos h1]
          exact Or.inl rfl
        · rw [if_neg h1]
          exact Or.inr ⟨'?', query, rfl, by decide⟩
      · cases path with
        | nil => simp at h0
        | cons a t =>
          simp only [List.getD_cons_zero] at h0
          subst h0
          exact Or.inr ⟨'/', t ++ qpart, by simp, by decide⟩
  rw [hstop.1, hstop.2]
  have hbr1 : netloc.contains '[' = false := by
    rw [Bool.eq_false_iff]
    intro h
    have hm := List.elem_iff.1 h
    obtain ⟨⟨⟨⟨⟨⟨⟨hA, hB⟩, hC⟩, hD⟩, hE⟩, hF⟩, hG⟩, hH⟩ := hn2 '[' hm
    exact hD rfl
  have hbr2 : netloc.contains ']' = false := by
    rw [Bool.eq_false_iff]
    intro h
    have hm := List.elem_iff.1 h
    obtain ⟨⟨⟨⟨⟨⟨⟨hA, hB⟩, hC⟩, hD⟩, hE⟩, hF⟩, hG⟩, hH⟩ := hn2 ']' hm
    exact hE rfl
  rw [hbr1, hbr2]
  simp only [Bool.or_self, Bool.false_eq_true, if_false]
  have hnof : '#' ∉ path ++ qpart := by
    intro hmem
    rcases List.mem_append.1 hmem with h0 | h0
    · obtain ⟨⟨⟨⟨⟨hA, hB⟩, hC⟩, hD⟩, hE⟩, hF⟩ := hp2 '#' h0
      exact hB rfl
    · rw [hqpart] at h0
      by_cases h1 : query = []
      · rw [if_pos h1] at h0
        simp at h0
      · rw [if_neg h1] at h0
        rcases List.mem_cons.1 h0 with h2 | h2
        · exact absurd h2 (by decide)
        · obtain ⟨⟨⟨hA, hB⟩, hC⟩, hD⟩ := hq '#' h2
          exact hA rfl
  rw [splitFirst_none '#' _ hnof]
  have hnoq : '?' ∉ path := fun hmem => (hp2 '?' hmem).1.1.1.1.1 rfl
  by_cases h1 : query = []
  · subst h1
    rw [hqpart]
    simp only [reduceIte, List.append_nil]
    rw [splitFirst_none '?' path hnoq]
    rfl
  · rw [hqpart, if_neg h1]
    rw [splitFirst_app '?' path query hnoq]
    rfl

theorem urlparse_unparse (scheme netloc path query : Str)
    (hs : goodScheme scheme = true) (hn : goodNetloc netloc = true)
    (hp : goodPath path = true) (hq : goodQuery query = true) :
    urlparse (urlunparse scheme netloc path [] query []) =
      some ⟨scheme, netloc, path, [], query, []⟩ := by
  have hsemi : path.contains ';' = false := by
    rw [Bool.eq_false_iff]
    intro h
    have hm := List.elem_iff.1 h
    simp only [goodPath, Bool.and_eq_true, List.all_eq_true, Bool.not_eq_true',
      Bool.or_eq_false_iff, decide_eq_false_iff_not] at hp
    exact (hp.2 ';' hm).1.1.1.2 rfl
  unfold urlparse
  rw [urlsplit_unparse scheme netloc path query hs hn hp hq]
  simp only [Option.map_some']
  rw [if_neg]
  intro h
  rw [Bool.and_eq_true] at h
  rw [hsemi] at h
  exact absurd h.2 (by simp)

theorem canonicalize_url_fixed (scheme netloc path query : Str)
    (hs : goodScheme scheme = true) (hn : goodNetloc netloc = true)
    (hp : goodPath path = true) (hq : goodQuery query = true)
    (sn : stableNetloc netloc = true) (sp : stablePath path = true)
    (sq : stableQuery query = true) :
    canonicalize_url (urlunparse scheme netloc path [] query []) =
      urlunparse scheme netloc path [] query [] := by
  have hparse := urlparse_unparse scheme netloc path query hs hn hp hq
  have hs1 : scheme ≠ [] := by
    simp only [goodScheme, Bool.and_eq_true, decide_eq_true_eq, ne_eq] at hs
    exact hs.1.1.1
  have hn1 : netloc ≠ [] := by
    simp only [goodNetloc, Bool.and_eq_true, decide_eq_true_eq, ne_eq] at hn
    exact hn.1
  have hp1 : path = [] ∨ path.getD 0 ' ' = '/' := by
    simp only [goodPath, Bool.and_eq_true, Bool.or_eq_true,
      decide_eq_true_eq] at hp
    exact hp.1
  have hne : urlunparse scheme netloc path [] query [] ≠ [] := by
    rw [unparse_shape scheme netloc path query hs1 hn1 hp1]
    cases scheme with
    | nil => exact absurd rfl hs1
    | cons a t => simp
  simp only [stableNetloc, Bool.and_eq_true, Bool.not_eq_true',
    decide_eq_true_eq] at sn
  obtain ⟨⟨⟨⟨⟨sn1, sn2⟩, sn3⟩, sn4⟩, sn5⟩, sn6⟩ := sn
  simp only [stablePath, Bool.and_eq_true, Bool.not_eq_true',
    decide_eq_true_eq] at sp
  obtain ⟨⟨⟨⟨sp1, sp2⟩, sp3⟩, sp4⟩, sp5⟩ := sp
  unfold canonicalize_url
  rw [if_neg hne, hparse]
  simp only [sn1, sn2, sn3, sn4, sn5, sn6, sp1, sp2, sp3, sp4, sp5,
    Bool.false_eq_true, if_false]
  by_cases hq0 : query = []
  · subst hq0
    simp only [ne_eq, not_true_eq_false, if_false]
  · simp only [stableQuery, Bool.or_eq_true, Bool.and_eq_true,
      decide_eq_true_eq, ne_eq] at sq
    rcases sq with sq | ⟨⟨sq1, sq2⟩, sq3⟩
    · exact absurd sq hq0
    · rw [if_pos hq0, sq1, if_pos sq2, sq3]

set_option maxRecDepth 100000 in
/-- C4 counterexample: canonicalization is not idempotent.  The host
`amp.amp.example.com` loses one `amp.` prefix per pass, so a second pass
changes the result again. -/
theorem canonicalize_url_not_idempotent :
    canonicalize_url (canonicalize_url "http://amp.amp.example.com/x".data)
      ≠ canonicalize_url "http://amp.amp.example.com/x".data := by decide

/-- C4 (amended): `canonicalize_url` is idempotent on every URL whose
canonical form is assembled by `urlunparse` from a well-formed scheme, a
non-empty bracket-free host, a path and a query (`goodScheme` /
`goodNetloc` / `goodPath` / `goodQuery`) on which the per-part rewrites
are the identity (`stableNetloc` / `stablePath` / `stableQuery`): the
host is lowercase with no `www.` / `amp.` / `m.` / `mobile.` prefix and
no AMP-cache domain, the path carries no `/amp` affix and no trailing
slash, and the query is empty or tracking-free and encoding-stable. -/
theorem canonicalize_url_idempotent_on_canonical
    (u scheme netloc path query : Str)
    (h : canonicalize_url u = urlunparse scheme netloc path [] query [])
    (hs : goodScheme scheme = true) (hn : goodNetloc netloc = true)
    (hp : goodPath path = true) (hq : goodQuery query = true)
    (sn : stableNetloc netloc = true) (sp : stablePath path = true)
    (sq : stableQuery query = true) :
    canonicalize_url (canonicalize_url u) = canonicalize_url u := by
  rw [h]
  exact canonicalize_url_fixed scheme netloc path query hs hn hp hq sn sp sq

set_option maxRecDepth 100000 in
/-- Closed witness for C4 (amended): a www-host URL with one tracking and
one content parameter; its canonical form satisfies every hypothesis and
a second canonicalization leaves it unchanged. -/
theorem canonicalize_url_idempotent_on_canonical_witness :
    canonicalize_url (canonicalize_url
        "https://www.example.com/news/story?id=123&utm_source=x".data) =
      canonicalize_url
        "https://www.example.com/news/story?id=123&utm_source=x".data :=
  canonicalize_url_idempotent_on_canonical
    "https://www.example.com/news/story?id=123&utm_source=x".data
    "https".data "example.com".data "/news/story".data "id=123".data
    (by decide) (by decide) (by decide) (by decide) (by decide) (by decide)
    (by decide) (by decide)

theorem relative_checked_sound (r : Str) (now : Int)
    (h : relative_to_absolute_checked r now ≠ .error ()) :
    relative_to_absolute_checked r now = .ok (relative_to_absolute r now) := by
  unfold relative_to_absolute_checked relative_to_absolute at *
  by_cases h0 : r = []
  · simp [h0]
  · rw [if_neg h0] at h ⊢
    rw [if_neg h0]
    by_cases h1 : stripWs (lowerStr r) = "today".data
    · rw [if_pos h1] at h ⊢
      rw [if_pos h1]
    · rw [if_neg h1] at h ⊢
      rw [if_neg h1]
      by_cases h2 : stripWs (lowerStr r) = "yesterday".data
      · rw [if_pos h2] at h ⊢
        rw [if_pos h2]
      · rw [if_neg h2] at h ⊢
        rw [if_neg h2]
        cases hs : searchAgo (stripWs (lowerStr r)) with
        | none => rfl
        | some vu =>
          simp only [hs] at h
          simp only [hs, Option.map_some']
          by_cases h3 : (vu.1 : Int) * vu.2 > 999999999 * 86400
          · rw [if_pos h3] at h
            exact absurd rfl h
          · rw [if_neg h3] at h ⊢
            by_cases h4 : MINDT ≤ now - (vu.1 : Int) * vu.2 ∧
                now - (vu.1 : Int) * vu.2 ≤ MAXDT
            · rw [if_pos h4]
            · rw [if_neg h4] at h
              exact absurd rfl h

theorem parse_time_checked_sound (t : TimeIn) (now : Int)
    (h : parse_time_checked t now ≠ .error ()) :
    parse_time_checked t now = .ok (parse_time t now) := by
  match t with
  | .num n =>
    unfold parse_time_checked parse_time
    simp only []
    by_cases h1 : n = 0
    · simp [h1]
    · rw [if_neg h1, if_neg h1]
      by_cases h2 : MINDT ≤ n ∧ n ≤ MAXDT
      · rw [if_pos h2, if_pos h2]
      · rw [if_neg h2, if_neg h2]
  | .str s0 =>
    unfold parse_time_checked parse_time at *
    simp only [] at h ⊢
    by_cases h1 : s0 = []
    · simp [h1]
    · rw [if_neg h1] at h ⊢
      rw [if_neg h1]
      have hrel : relative_to_absolute_checked (stripWs s0) now ≠ .error () := by
        intro hc
        apply h
        rw [hc]
      rw [relative_checked_sound _ now hrel] at h ⊢
      cases relative_to_absolute (stripWs s0) now with
      | some d => rfl
      | none =>
        cases fromisoformat (replaceZ (stripWs s0)) with
        | some d => rfl
        | none => rfl

theorem checkedTimes_sound (now : Int) : ∀ (items : List Item),
    (∀ it ∈ items, parse_time_checked (.str it.time) now ≠ .error ()) →
    checkedTimes now items = .ok (items.filterMap fun it =>
      (parse_time (.str it.time) now).map fun p => (it.time, it.time_iso, p))
  | [], _ => rfl
  | it :: rest, h => by
    have h1 := parse_time_checked_sound (.str it.time) now
      (h it (List.mem_cons_self it rest))
    have hrec := checkedTimes_sound now rest
      (fun x hx => h x (List.mem_cons_of_mem it hx))
    simp only [checkedTimes, h1, List.filterMap_cons]
    cases hp : parse_time (.str it.time) now with
    | none =>
      simp only [Option.map_none']
      exact hrec
    | some p =>
      simp only [Option.map_some', hrec]
      rfl

theorem classify_duplicate_checked_ok (a b : Item) (now : Int)
    (h1 : parse_time_checked
      (.str (if a.time ≠ [] then a.time else a.time_iso)) now ≠ .error ())
    (h2 : parse_time_checked
      (.str (if b.time ≠ [] then b.time else b.time_iso)) now ≠ .error ()) :
    classify_duplicate_checked a b now = .ok (classify_duplicate a b now) := by
  unfold classify_duplicate_checked classify_duplicate
  by_cases c1 : canonicalize_url a.url ≠ [] ∧ canonicalize_url b.url ≠ [] ∧
      canonicalize_url a.url = canonicalize_url b.url
  · rw [if_pos c1, if_pos c1]
  · rw [if_neg c1, if_neg c1]
    by_cases c2 : a.content ≠ [] ∧ b.content ≠ [] ∧
        content_hash a.content ≠ [] ∧ content_hash b.content ≠ [] ∧
        content_hash a.content = content_hash b.content
    · rw [if_pos c2, if_pos c2]
    · rw [if_neg c2, if_neg c2]
      by_cases c3 : title_similarity a.titleD b.titleD ≥ 8/10
      · rw [if_pos c3, if_pos c3]
        rw [parse_time_checked_sound _ now h1, parse_time_checked_sound _ now h2]
        cases parse_time (.str (if a.time ≠ [] then a.time else a.time_iso))
            now with
        | none =>
          cases parse_time (.str (if b.time ≠ [] then b.time else b.time_iso))
              now with
          | none => rfl
          | some t2 => rfl
        | some t1 =>
          cases parse_time (.str (if b.time ≠ [] then b.time else b.time_iso))
              now with
          | none => rfl
          | some t2 =>
            simp only []
            by_cases c4 : (t1 - t2).natAbs ≤ 86400
            · rw [if_pos c4, if_pos c4]
            · rw [if_neg c4, if_neg c4]
      · rw [if_neg c3, if_neg c3]
        by_cases c5 : title_similarity a.titleD b.titleD ≥ 7/10
        · rw [if_pos c5, if_pos c5]
        · rw [if_neg c5, if_neg c5]

theorem merge_items_checked_ok (items : List Item) (now : Int)
    (htitle : 2 ≤ items.length →
      ((pyMaxBy (fun x => (x.titleD.length, 0)) items).getD {}).title ≠ none)
    (htimes : ∀ it ∈ items, parse_time_checked (.str it.time) now ≠ .error ()) :
    merge_items_checked items now = .ok (merge_items items now) := by
  match items with
  | [] => rfl
  | [item] => rfl
  | a :: b :: rest =>
    have ht := htitle (by simp)
    simp only [merge_items_checked, merge_items]
    cases hm : ((pyMaxBy (fun x => (x.titleD.length, 0)) (a :: b :: rest)).getD
        {}).title with
    | none => exact absurd hm ht
    | some bt =>
      rw [checkedTimes_sound now _ htimes]
      have hbt : ∀ it : Item, it.title = some bt → it.titleD = bt := by
        intro it hit
        unfold Item.titleD
        rw [hit]
        rfl
      rw [hbt _ hm]

set_option maxRecDepth 200000 in
set_option maxHeartbeats 1000000 in
unseal Rat.mul Rat.inv Rat.add Rat.sub in
/-- **C1.** `classify_duplicate` does not return a classification for
every pair of items: the two items below have title similarity `1 ≥ 0.80`
(for which the claim requires MEDIUM regardless of timestamps), but the
time check of the `≥ 0.80` branch parses "3000 years ago", whose
`datetime` arithmetic overflows and raises an uncaught `OverflowError`
instead — while the same pair with the in-range "3 years ago" does
return MEDIUM. -/
theorem classify_duplicate_overflow_raises :
    title_similarity "Some story".data "Some story".data ≥ 8/10 ∧
    classify_duplicate_checked
        { title := some "Some story".data, time := "3000 years ago".data }
        { title := some "Some story".data, time := "2 hours ago".data }
        1760230000 = .error () ∧
    classify_duplicate_checked
        { title := some "Some story".data, time := "3 years ago".data }
        { title := some "Some story".data, time := "2 hours ago".data }
        1760230000 = .ok .MEDIUM := by
  decide

set_option maxRecDepth 200000 in
set_option maxHeartbeats 1000000 in
unseal Rat.mul Rat.inv Rat.add Rat.sub in
/-- **C8.** `merge_items` does not produce a merged record for every
group of two or more items: a member whose time field reads "3000 years
ago" — a time the claim requires to be excluded from the earliest-time
comparison — aborts the merge with an uncaught `OverflowError`, and a
group in which every member's defaulted title is empty and the first
lacks the key aborts with `KeyError` at the `['title']` subscript; the
same pair with in-range times merges and carries the earliest-parsing
member's raw `time`/`time_iso` fields. -/
theorem merge_items_overflow_raises :
    merge_items_checked
        [{ title := some "Ancient story".data, time := "3000 years ago".data },
         itemJan20] 1760230000 = .error () ∧
    merge_items_checked
        [{ time := "Jan 25, 2026".data }, { url := "https://a.com".data }] 0
      = .error () ∧
    (merge_items_checked [itemJan25, itemJan20] 0).map
        (fun m => (m.time, m.time_iso)) =
      .ok ("Jan 20, 2026".data, "2026-01-20T00:00:00+00:00".data) := by
  decide
